import Mathlib

/-!
# Verification of the fresh editor's LSP client core

This file is a shallow embedding, in Lean 4, of the LSP-client core of the
`fresh` editor:

* `src/async_bridge.rs` — the async-to-sync bridge (`AsyncBridge`),
* `src/lsp_async.rs`   — the per-language session task (`LspTask`), its wire
  codec (`write_message` / `read_message`), command handlers and event loop,
  and the synchronous handle (`LspHandle`),
* `src/lsp_manager.rs` — the per-language registry (`LspManager`),
* `crates/fresh-editor/src/app/lsp_actions.rs` — the editor-side lifecycle
  glue (`disable_lsp_for_buffer`).

Modelling conventions:

* Rust `HashMap`s become association lists with `lookupA` / `insertA` /
  `eraseA` (`eraseA` drops every binding of the key, which agrees with
  `HashMap::remove` because a `HashMap` holds at most one binding per key).
* Rust `i64` / `i32` become `Int`; the one place the source truncates
  (`version as i32` in the didOpen/didChange parameters) is modelled
  explicitly by `toInt32`.
* Byte streams (`stdin`/`stdout` of the child process) become `List Nat`
  (each entry < 256), with an explicit UTF-8 encoder/decoder pair.
* `serde_json` values become the `Json` inductive below, with an executable
  printer and parser.  JSON numbers are restricted to integers (the only
  numbers the client ever serialises; `i64` fields of the JSON-RPC structs),
  and the parser has no artificial recursion-depth limit.
* I/O outcomes that the task merely observes (a failed write to the child's
  stdin, the reply eventually delivered to an awaited request) are passed to
  the handlers as explicit oracle arguments.
-/

namespace Fresh

/-! ## Association-list maps

`HashMap<K, V>` is modelled as `List (K × V)` holding at most one binding per
key.  `eraseA` removes every binding of the key (on a well-formed map, the
one binding), matching `HashMap::remove`; `insertA` replaces the binding.
-/

/-- `HashMap::get`: the value bound to `a`, if any (first binding wins). -/
def lookupA {α β : Type} [DecidableEq α] : List (α × β) → α → Option β
  | [], _ => none
  | (k, v) :: t, a => if k = a then some v else lookupA t a

/-- `HashMap::insert`: bind `a` to `b`, replacing any existing binding. -/
def insertA {α β : Type} [DecidableEq α] : List (α × β) → α → β → List (α × β)
  | [], a, b => [(a, b)]
  | (k, v) :: t, a, b => if k = a then (a, b) :: t else (k, v) :: insertA t a b

/-- `HashMap::remove`: drop the binding of `a`. -/
def eraseA {α β : Type} [DecidableEq α] (l : List (α × β)) (a : α) : List (α × β) :=
  l.filter (fun kv => kv.1 ≠ a)

@[simp] theorem lookupA_nil {α β : Type} [DecidableEq α] (a : α) :
    lookupA ([] : List (α × β)) a = none := rfl

@[simp] theorem lookupA_cons {α β : Type} [DecidableEq α] (k a : α) (v : β) (t : List (α × β)) :
    lookupA ((k, v) :: t) a = if k = a then some v else lookupA t a := rfl

@[simp] theorem lookupA_insertA_self {α β : Type} [DecidableEq α]
    (l : List (α × β)) (a : α) (b : β) : lookupA (insertA l a b) a = some b := by
  induction l with
  | nil => simp [insertA]
  | cons kv t ih =>
    obtain ⟨k, v⟩ := kv
    by_cases h : k = a <;> simp [insertA, h, ih]

theorem lookupA_insertA_ne {α β : Type} [DecidableEq α]
    (l : List (α × β)) (a k : α) (b : β) (h : k ≠ a) :
    lookupA (insertA l a b) k = lookupA l k := by
  have h' : a ≠ k := Ne.symm h
  induction l with
  | nil => simp [insertA, h']
  | cons kv t ih =>
    obtain ⟨k', v'⟩ := kv
    by_cases h1 : k' = a
    · subst h1
      simp [insertA, h']
    · simp only [insertA, if_neg h1, lookupA_cons]
      by_cases h2 : k' = k <;> simp [h2, ih]

@[simp] theorem eraseA_nil {α β : Type} [DecidableEq α] (a : α) :
    eraseA ([] : List (α × β)) a = [] := rfl

theorem eraseA_cons {α β : Type} [DecidableEq α] (k a : α) (v : β) (t : List (α × β)) :
    eraseA ((k, v) :: t) a = if k = a then eraseA t a else (k, v) :: eraseA t a := by
  by_cases h : k = a <;> simp [eraseA, List.filter_cons, h]

@[simp] theorem lookupA_eraseA_self {α β : Type} [DecidableEq α]
    (l : List (α × β)) (a : α) : lookupA (eraseA l a) a = none := by
  induction l with
  | nil => simp
  | cons kv t ih =>
    obtain ⟨k, v⟩ := kv
    rw [eraseA_cons]
    by_cases h : k = a <;> simp [h, ih]

theorem lookupA_eraseA_ne {α β : Type} [DecidableEq α]
    (l : List (α × β)) (a k : α) (h : k ≠ a) :
    lookupA (eraseA l a) k = lookupA l k := by
  induction l with
  | nil => simp
  | cons kv t ih =>
    obtain ⟨k', v'⟩ := kv
    rw [eraseA_cons]
    by_cases h1 : k' = a
    · rw [if_pos h1, ih]
      have h2 : ¬ k' = k := by rw [h1]; exact Ne.symm h
      simp [h2]
    · rw [if_neg h1]
      simp only [lookupA_cons]
      by_cases h2 : k' = k <;> simp [h2, ih]

/-! ## Decimal digits

`format!("{}", n)` on the one hand and `str::parse::<usize>` /
`itoa`-style integer printing inside `serde_json` on the other.  The printer
recurses on an explicit fuel so that every definition reduces inside the
kernel; `natToChars` fixes the fuel at a sufficient value.
-/

/-- The ASCII digit character of `d % 10`. -/
def digitChar (d : Nat) : Char :=
  match d with
  | 0 => '0' | 1 => '1' | 2 => '2' | 3 => '3' | 4 => '4'
  | 5 => '5' | 6 => '6' | 7 => '7' | 8 => '8' | 9 => '9'
  | _ => '*'

/-- Decimal digits of `n`, most significant first (fuel-indexed). -/
def natToCharsAux : Nat → Nat → List Char
  | 0, _ => []
  | fuel + 1, n =>
    if n < 10 then [digitChar n]
    else natToCharsAux fuel (n / 10) ++ [digitChar (n % 10)]

/-- Decimal digits of `n`, most significant first, as `format!("{}", n)` prints. -/
def natToChars (n : Nat) : List Char := natToCharsAux (n + 1) n

theorem natToCharsAux_fuel_irrel :
    ∀ f g n : Nat, n < f → n < g → natToCharsAux f n = natToCharsAux g n := by
  intro f
  induction f with
  | zero => intro g n h; omega
  | succ f ih =>
    intro g n hf hg
    match g, hg with
    | g + 1, hg =>
      by_cases h : n < 10
      · simp [natToCharsAux, h]
      · have h1 : n / 10 < f := by omega
        have h2 : n / 10 < g := by omega
        simp [natToCharsAux, h, ih g (n / 10) h1 h2]

/-- Canonical unfolding of `natToChars`. -/
theorem natToChars_unfold (n : Nat) :
    natToChars n = if n < 10 then [digitChar n]
                   else natToChars (n / 10) ++ [digitChar (n % 10)] := by
  unfold natToChars
  by_cases h : n < 10
  · simp [natToCharsAux, h]
  · have hstep : natToCharsAux (n + 1) n
        = natToCharsAux n (n / 10) ++ [digitChar (n % 10)] := by
      simp [natToCharsAux, h]
    rw [hstep, natToCharsAux_fuel_irrel n (n / 10 + 1) (n / 10) (by omega) (by omega)]
    simp [h, natToChars]

theorem digitChar_isDigit {d : Nat} (h : d < 10) : (digitChar d).isDigit = true := by
  interval_cases d <;> decide

theorem digitChar_toNat {d : Nat} (h : d < 10) : (digitChar d).toNat = 48 + d := by
  interval_cases d <;> decide

theorem natToChars_all_digits (n : Nat) : ∀ c ∈ natToChars n, c.isDigit = true := by
  induction n using Nat.strongRecOn with
  | _ n ih =>
    rw [natToChars_unfold]
    by_cases h : n < 10
    · simp only [if_pos h, List.mem_singleton]
      rintro c rfl
      exact digitChar_isDigit h
    · simp only [if_neg h, List.mem_append, List.mem_singleton]
      rintro c (hc | rfl)
      · exact ih (n / 10) (by omega) c hc
      · exact digitChar_isDigit (by omega)

theorem natToChars_ne_nil (n : Nat) : natToChars n ≠ [] := by
  rw [natToChars_unfold]
  by_cases h : n < 10 <;> simp [h]

/-- The digit-run accumulator used by the parsers below. -/
def digitStep (acc : Nat) (c : Char) : Nat := acc * 10 + (c.toNat - 48)

theorem foldl_digitStep_natToChars (n : Nat) :
    ∀ acc : Nat, (natToChars n).foldl digitStep acc = acc * 10 ^ (natToChars n).length + n := by
  induction n using Nat.strongRecOn with
  | _ n ih =>
    intro acc
    rw [natToChars_unfold]
    by_cases h : n < 10
    · simp [if_pos h, digitStep, digitChar_toNat h]
    · have hd : (digitChar (n % 10)).toNat - 48 = n % 10 := by
        rw [digitChar_toNat (by omega)]; omega
      simp only [if_neg h, List.foldl_append, List.foldl_cons, List.foldl_nil,
        List.length_append, List.length_singleton]
      rw [ih (n / 10) (by omega) acc]
      simp only [digitStep, hd]
      rw [pow_succ]
      have : acc * (10 ^ (natToChars (n / 10)).length * 10)
      = acc * 10 ^ (natToChars (n / 10)).length * 10 := by ring
      rw [this]
      omega

theorem foldl_digitStep_natToChars_zero (n : Nat) :
    (natToChars n).foldl digitStep 0 = n := by
  simpa using foldl_digitStep_natToChars n 0

/-- `str::parse::<usize>` on an already-trimmed string: succeeds exactly on a
nonempty all-digit string.  (The Rust parser also accepts a leading `+`,
which never occurs in the frames the client builds.) -/
def parseNatStr (s : List Char) : Option Nat :=
  if s = [] then none
  else if s.all (fun c => c.isDigit) then some (s.foldl digitStep 0)
  else none

@[simp] theorem parseNatStr_natToChars (n : Nat) : parseNatStr (natToChars n) = some n := by
  have hall : (natToChars n).all (fun c => c.isDigit) = true := by
    rw [List.all_eq_true]
    intro c hc
    exact natToChars_all_digits n c hc
  simp [parseNatStr, natToChars_ne_nil n, hall, foldl_digitStep_natToChars_zero]

/-- Integer printing, as `serde_json` (via `itoa`) prints an `i64`: optional
minus sign followed by the decimal digits. -/
def intToChars (n : Int) : List Char :=
  if n < 0 then '-' :: natToChars n.natAbs else natToChars n.toNat

/-- The maximal digit run at the head of the input, and what follows it. -/
def takeDigitRun : List Char → List Char × List Char
  | [] => ([], [])
  | c :: t =>
    if c.isDigit then
      let (ds, r) := takeDigitRun t
      (c :: ds, r)
    else ([], c :: t)

/-- `true` iff the input cannot extend a decimal digit run. -/
def noDigitHead : List Char → Bool
  | [] => true
  | c :: _ => !c.isDigit

/-- The integer-number parser of the JSON parser below: an optional minus
sign followed by a nonempty digit run.  (Real `serde_json` additionally
parses fractions and exponents; the client only ever serialises integers,
so the embedding restricts JSON numbers to integers.) -/
def parseIntChars : List Char → Option (Int × List Char)
  | [] => none
  | c :: t =>
    if c = '-' then
      if (takeDigitRun t).1 = [] then none
      else some (-(((takeDigitRun t).1.foldl digitStep 0 : Nat) : Int), (takeDigitRun t).2)
    else
      if (takeDigitRun (c :: t)).1 = [] then none
      else some ((((takeDigitRun (c :: t)).1.foldl digitStep 0 : Nat) : Int),
        (takeDigitRun (c :: t)).2)

theorem takeDigitRun_append (ds : List Char) (hds : ∀ c ∈ ds, c.isDigit = true)
    (rest : List Char) (hrest : noDigitHead rest = true) :
    takeDigitRun (ds ++ rest) = (ds, rest) := by
  induction ds with
  | nil =>
    match rest, hrest with
    | [], _ => rfl
    | c :: t, hr =>
      simp only [noDigitHead, Bool.not_eq_true'] at hr
      simp [takeDigitRun, hr]
  | cons c t ih =>
    have hc : c.isDigit = true := hds c (by simp)
    have ht := ih (fun x hx => hds x (by simp [hx]))
    simp [takeDigitRun, hc, ht]

theorem isDigit_ne_dash {c : Char} (h : c.isDigit = true) : ¬ c = '-' := by
  intro hc
  subst hc
  simp [Char.isDigit] at h

theorem natToChars_head (n : Nat) :
    ∃ c t, natToChars n = c :: t ∧ c.isDigit = true := by
  match hn : natToChars n with
  | [] => exact absurd hn (natToChars_ne_nil n)
  | c :: t =>
    refine ⟨c, t, rfl, ?_⟩
    exact natToChars_all_digits n c (by rw [hn]; simp)

theorem parseIntChars_intToChars (n : Int) (rest : List Char)
    (hrest : noDigitHead rest = true) :
    parseIntChars (intToChars n ++ rest) = some (n, rest) := by
  by_cases hn : n < 0
  · have htd : takeDigitRun (natToChars n.natAbs ++ rest) = (natToChars n.natAbs, rest) :=
      takeDigitRun_append _ (natToChars_all_digits _) rest hrest
    rw [intToChars, if_pos hn, List.cons_append]
    simp only [parseIntChars]
    rw [if_pos trivial, htd]
    dsimp only
    rw [if_neg (natToChars_ne_nil n.natAbs)]
    simp only [foldl_digitStep_natToChars_zero]
    have hval : -((n.natAbs : Nat) : Int) = n := by omega
    rw [hval]
  · obtain ⟨c, t, hct, hc⟩ := natToChars_head n.toNat
    have htd : takeDigitRun (natToChars n.toNat ++ rest) = (natToChars n.toNat, rest) :=
      takeDigitRun_append _ (natToChars_all_digits _) rest hrest
    rw [intToChars, if_neg hn, hct, List.cons_append]
    simp only [parseIntChars]
    rw [if_neg (isDigit_ne_dash hc), ← List.cons_append, ← hct, htd]
    dsimp only
    rw [if_neg (natToChars_ne_nil n.toNat)]
    simp only [foldl_digitStep_natToChars_zero]
    have hval : ((n.toNat : Nat) : Int) = n := by omega
    rw [hval]

/-! ## UTF-8

`String::as_bytes` / `String::from_utf8` and the UTF-8 validation done by
tokio's `read_line`.  Bytes are `Nat`s below 256.  The decoder rejects
invalid leading bytes, truncated sequences, overlong encodings, surrogates
and values above `0x10FFFF`, as Rust's `from_utf8` does. -/

/-- UTF-8 encoding of one Unicode scalar value. -/
def utf8EncodeChar (c : Nat) : List Nat :=
  if c < 0x80 then [c]
  else if c < 0x800 then [0xC0 + c / 64, 0x80 + c % 64]
  else if c < 0x10000 then [0xE0 + c / 4096, 0x80 + c / 64 % 64, 0x80 + c % 64]
  else [0xF0 + c / 262144, 0x80 + c / 4096 % 64, 0x80 + c / 64 % 64, 0x80 + c % 64]

/-- `str::as_bytes`: the UTF-8 bytes of a character list. -/
def utf8Encode (s : List Char) : List Nat :=
  s.flatMap (fun c => utf8EncodeChar c.toNat)

@[simp] theorem utf8Encode_nil : utf8Encode [] = [] := rfl

@[simp] theorem utf8Encode_cons (c : Char) (t : List Char) :
    utf8Encode (c :: t) = utf8EncodeChar c.toNat ++ utf8Encode t := rfl

theorem utf8Encode_append (s t : List Char) :
    utf8Encode (s ++ t) = utf8Encode s ++ utf8Encode t := by
  simp [utf8Encode]

/-- Decode one UTF-8 sequence from the head of the byte stream, returning the
scalar value and the remaining bytes.  Fails on any invalid sequence. -/
def utf8DecodeChar : List Nat → Option (Nat × List Nat)
  | [] => none
  | b :: r =>
    if b < 0x80 then some (b, r)
    else if b < 0xC2 then none
    else if b < 0xE0 then
      match r with
      | b1 :: r1 =>
        if 0x80 ≤ b1 ∧ b1 < 0xC0 then some ((b - 0xC0) * 64 + (b1 - 0x80), r1) else none
      | [] => none
    else if b < 0xF0 then
      match r with
      | b1 :: b2 :: r2 =>
        if (0x80 ≤ b1 ∧ b1 < 0xC0) ∧ (0x80 ≤ b2 ∧ b2 < 0xC0)
            ∧ (b = 0xE0 → 0xA0 ≤ b1) ∧ (b = 0xED → b1 < 0xA0) then
          some ((b - 0xE0) * 4096 + (b1 - 0x80) * 64 + (b2 - 0x80), r2)
        else none
      | _ => none
    else if b < 0xF5 then
      match r with
      | b1 :: b2 :: b3 :: r3 =>
        if (0x80 ≤ b1 ∧ b1 < 0xC0) ∧ (0x80 ≤ b2 ∧ b2 < 0xC0) ∧ (0x80 ≤ b3 ∧ b3 < 0xC0)
            ∧ (b = 0xF0 → 0x90 ≤ b1) ∧ (b = 0xF4 → b1 < 0x90) then
          some ((b - 0xF0) * 262144 + (b1 - 0x80) * 4096 + (b2 - 0x80) * 64 + (b3 - 0x80), r3)
        else none
      | _ => none
    else none

/-- Decode a whole byte list (fuel-indexed; the fuel is spent one unit per
decoded character, and `utf8Decode` supplies enough for any input). -/
def utf8DecodeAux : Nat → List Nat → Option (List Char)
  | _, [] => some []
  | 0, _ :: _ => none
  | fuel + 1, b :: r =>
    match utf8DecodeChar (b :: r) with
    | some (c, r1) =>
      match utf8DecodeAux fuel r1 with
      | some cs => some (Char.ofNat c :: cs)
      | none => none
    | none => none

/-- `String::from_utf8`: decode a byte list, failing on invalid UTF-8. -/
def utf8Decode (bs : List Nat) : Option (List Char) :=
  utf8DecodeAux bs.length bs

theorem utf8EncodeChar_length_pos (c : Nat) : 0 < (utf8EncodeChar c).length := by
  unfold utf8EncodeChar
  split <;> simp_all
  split <;> simp_all
  split <;> simp_all

theorem char_valid_ranges (c : Char) :
    c.toNat < 0xD800 ∨ (0xDFFF < c.toNat ∧ c.toNat < 0x110000) := by
  have h := c.valid
  cases h with
  | inl h => exact Or.inl h
  | inr h => exact Or.inr h

/-- Decoding one encoded character undoes the encoding and consumes exactly
its bytes. -/
theorem utf8DecodeChar_encode (c : Char) (rest : List Nat) :
    utf8DecodeChar (utf8EncodeChar c.toNat ++ rest) = some (c.toNat, rest) := by
  have hv := char_valid_ranges c
  set n := c.toNat with hn
  by_cases h1 : n < 0x80
  · simp only [utf8EncodeChar, if_pos h1, List.cons_append, List.nil_append,
      utf8DecodeChar, if_pos h1]
  · by_cases h2 : n < 0x800
    · have e1 : ¬ 0xC0 + n / 64 < 0x80 := by omega
      have e2 : ¬ 0xC0 + n / 64 < 0xC2 := by omega
      have e3 : 0xC0 + n / 64 < 0xE0 := by omega
      simp only [utf8EncodeChar, if_pos h2, if_neg h1, List.cons_append, List.nil_append,
        utf8DecodeChar, if_neg e1, if_neg e2, if_pos e3]
      rw [if_pos (by constructor <;> omega)]
      have : (0xC0 + n / 64 - 0xC0) * 64 + (0x80 + n % 64 - 0x80) = n := by omega
      rw [this]
    · by_cases h3 : n < 0x10000
      · have e1 : ¬ 0xE0 + n / 4096 < 0x80 := by omega
        have e2 : ¬ 0xE0 + n / 4096 < 0xC2 := by omega
        have e3 : ¬ 0xE0 + n / 4096 < 0xE0 := by omega
        have e4 : 0xE0 + n / 4096 < 0xF0 := by omega
        simp only [utf8EncodeChar, if_pos h3, if_neg h1, if_neg h2, List.cons_append,
          List.nil_append, utf8DecodeChar, if_neg e1, if_neg e2, if_neg e3, if_pos e4]
        rw [if_pos ?h34]
        case h34 =>
          refine ⟨⟨by omega, by omega⟩, ⟨by omega, by omega⟩, ?_, ?_⟩
          · intro he
            have : n / 4096 = 0 := by omega
            omega
          · intro he
            have : n / 4096 = 13 := by omega
            omega
        have : (0xE0 + n / 4096 - 0xE0) * 4096 + (0x80 + n / 64 % 64 - 0x80) * 64
            + (0x80 + n % 64 - 0x80) = n := by omega
        rw [this]
      · have h4 : n < 0x110000 := by omega
        have e1 : ¬ 0xF0 + n / 262144 < 0x80 := by omega
        have e2 : ¬ 0xF0 + n / 262144 < 0xC2 := by omega
        have e3 : ¬ 0xF0 + n / 262144 < 0xE0 := by omega
        have e4 : ¬ 0xF0 + n / 262144 < 0xF0 := by omega
        have e5 : 0xF0 + n / 262144 < 0xF5 := by omega
        simp only [utf8EncodeChar, if_neg h1, if_neg h2, if_neg h3, List.cons_append,
          List.nil_append, utf8DecodeChar, if_neg e1, if_neg e2, if_neg e3, if_neg e4,
          if_pos e5]
        rw [if_pos ?h45]
        case h45 =>
          refine ⟨⟨by omega, by omega⟩, ⟨by omega, by omega⟩, ⟨by omega, by omega⟩, ?_, ?_⟩
          · intro he
            have : n / 262144 = 0 := by omega
            omega
          · intro he
            have : n / 262144 = 4 := by omega
            omega
        have : (0xF0 + n / 262144 - 0xF0) * 262144 + (0x80 + n / 4096 % 64 - 0x80) * 4096
            + (0x80 + n / 64 % 64 - 0x80) * 64 + (0x80 + n % 64 - 0x80) = n := by omega
        rw [this]

theorem utf8DecodeAux_encode (s : List Char) :
    ∀ fuel : Nat, (utf8Encode s).length ≤ fuel →
      utf8DecodeAux fuel (utf8Encode s) = some s := by
  induction s with
  | nil => intro fuel _; simp [utf8DecodeAux]
  | cons c t ih =>
    intro fuel hf
    have hlen : 0 < (utf8EncodeChar c.toNat).length := utf8EncodeChar_length_pos _
    match he : utf8EncodeChar c.toNat with
    | [] =>
      rw [he] at hlen
      simp at hlen
    | b :: r =>
      have henc : utf8Encode (c :: t) = b :: (r ++ utf8Encode t) := by
        rw [utf8Encode_cons, he, List.cons_append]
      have hdec : utf8DecodeChar (b :: (r ++ utf8Encode t)) = some (c.toNat, utf8Encode t) := by
        rw [← List.cons_append, ← he, utf8DecodeChar_encode]
      have hflen : r.length + (utf8Encode t).length + 1 ≤ fuel := by
        rw [utf8Encode_cons, he] at hf
        simp only [List.length_append, List.length_cons] at hf
        omega
      match fuel with
      | 0 => exact absurd hflen (by omega)
      | fuel + 1 =>
        rw [henc]
        simp only [utf8DecodeAux]
        rw [hdec]
        have hrec : utf8DecodeAux fuel (utf8Encode t) = some t := by
          apply ih
          omega
        simp [hrec, Char.ofNat_toNat]

/-- The UTF-8 round trip: decoding the encoding of any character list
recovers it. -/
theorem utf8Decode_encode (s : List Char) : utf8Decode (utf8Encode s) = some s :=
  utf8DecodeAux_encode s _ le_rfl

/-- ASCII characters encode to their own code points. -/
theorem utf8Encode_ascii (s : List Char) (h : ∀ c ∈ s, c.toNat < 128) :
    utf8Encode s = s.map Char.toNat := by
  induction s with
  | nil => rfl
  | cons c t ih =>
    have hc : c.toNat < 128 := h c (by simp)
    rw [utf8Encode_cons, ih (fun x hx => h x (by simp [hx]))]
    simp [utf8EncodeChar, hc]

/-! ## JSON values

`serde_json::Value`, restricted to integer numbers (see the header comment).
The printer mirrors `serde_json::to_string` (compact form, serde's escape
table); the parser mirrors `serde_json::from_str` on the grammar the client
uses. -/

/-- A JSON value (`serde_json::Value` with integer numbers). -/
inductive Json where
  | null
  | bool (b : Bool)
  | num (n : Int)
  | str (s : String)
  | arr (xs : List Json)
  | obj (fs : List (String × Json))

/-- The lowercase hex digit of `d % 16`, as serde's `\u00xx` escapes use. -/
def hexChar (d : Nat) : Char :=
  match d with
  | 0 => '0' | 1 => '1' | 2 => '2' | 3 => '3' | 4 => '4'
  | 5 => '5' | 6 => '6' | 7 => '7' | 8 => '8' | 9 => '9'
  | 10 => 'a' | 11 => 'b' | 12 => 'c' | 13 => 'd' | 14 => 'e' | 15 => 'f'
  | _ => '*'

/-- The value of one hex digit (upper or lower case). -/
def hexVal (c : Char) : Option Nat :=
  if '0' ≤ c ∧ c ≤ '9' then some (c.toNat - 48)
  else if 'a' ≤ c ∧ c ≤ 'f' then some (c.toNat - 97 + 10)
  else if 'A' ≤ c ∧ c ≤ 'F' then some (c.toNat - 65 + 10)
  else none

/-- serde's escape table: `"` and `\` are escaped, the control characters
`\x08 \x09 \x0A \x0C \x0D` get their short escapes, every other control
character becomes `\u00xx`, and everything else (including all non-ASCII)
passes through unescaped. -/
def escapeChar (c : Char) : List Char :=
  if c = '"' then ['\\', '"']
  else if c = '\\' then ['\\', '\\']
  else if c = '\x08' then ['\\', 'b']
  else if c = '\t' then ['\\', 't']
  else if c = '\n' then ['\\', 'n']
  else if c = '\x0C' then ['\\', 'f']
  else if c = '\r' then ['\\', 'r']
  else if c.toNat < 0x20 then ['\\', 'u', '0', '0', hexChar (c.toNat / 16), hexChar (c.toNat % 16)]
  else [c]

/-- A JSON string literal: quote, escaped contents, quote. -/
def printStr (s : String) : List Char :=
  '"' :: (s.data.flatMap escapeChar ++ ['"'])

/-- Undo a single-character escape (`serde` also accepts `\/`). -/
def unescapeChar (e : Char) : Option Char :=
  if e = '"' then some '"'
  else if e = '\\' then some '\\'
  else if e = '/' then some '/'
  else if e = 'b' then some '\x08'
  else if e = 'f' then some '\x0C'
  else if e = 'n' then some '\n'
  else if e = 'r' then some '\r'
  else if e = 't' then some '\t'
  else none

/-- Parse a string body after the opening quote, undoing escapes, up to the
closing quote.  Unescaped control characters are rejected, as serde rejects
them.  (serde additionally combines `\uXXXX` surrogate pairs; the printer
never emits surrogate escapes, so they are rejected here.) -/
def parseStrAux : List Char → Option (List Char × List Char)
  | [] => none
  | '"' :: r => some ([], r)
  | '\\' :: 'u' :: a :: b :: c :: d :: r =>
    match hexVal a, hexVal b, hexVal c, hexVal d with
    | some va, some vb, some vc, some vd =>
      let n := ((va * 16 + vb) * 16 + vc) * 16 + vd
      if n < 0xD800 then
        match parseStrAux r with
        | some (s, r1) => some (Char.ofNat n :: s, r1)
        | none => none
      else none
    | _, _, _, _ => none
  | '\\' :: e :: r =>
    match unescapeChar e with
    | some ch =>
      match parseStrAux r with
      | some (s, r1) => some (ch :: s, r1)
      | none => none
    | none => none
  | c :: r =>
    if c.toNat < 0x20 then none
    else
      match parseStrAux r with
      | some (s, r1) => some (c :: s, r1)
      | none => none

theorem hexVal_hexChar {d : Nat} (h : d < 16) : hexVal (hexChar d) = some d := by
  interval_cases d <;> decide

/-- Parsing one escaped character undoes the escape. -/
theorem parseStrAux_escapeChar (c : Char) (rest : List Char) :
    parseStrAux (escapeChar c ++ rest)
      = match parseStrAux rest with
        | some (s, r1) => some (c :: s, r1)
        | none => none := by
  by_cases h1 : c = '"'
  · subst h1; simp [escapeChar, parseStrAux, unescapeChar]
  · by_cases h2 : c = '\\'
    · subst h2; simp [escapeChar, parseStrAux, unescapeChar]
    · by_cases h3 : c = '\x08'
      · subst h3; simp [escapeChar, parseStrAux, unescapeChar]
      · by_cases h4 : c = '\t'
        · subst h4; simp [escapeChar, parseStrAux, unescapeChar]
        · by_cases h5 : c = '\n'
          · subst h5; simp [escapeChar, parseStrAux, unescapeChar]
          · by_cases h6 : c = '\x0C'
            · subst h6; simp [escapeChar, parseStrAux, unescapeChar]
            · by_cases h7 : c = '\r'
              · subst h7; simp [escapeChar, parseStrAux, unescapeChar]
              · by_cases h8 : c.toNat < 0x20
                · have hv : c.toNat < 0xD800 := by omega
                  have hdiv : c.toNat / 16 < 16 := by omega
                  have hmod : c.toNat % 16 < 16 := by omega
                  have h0 : hexVal '0' = some 0 := by decide
                  have harith : ((0 * 16 + 0) * 16 + c.toNat / 16) * 16 + c.toNat % 16
                      = c.toNat := by omega
                  simp only [escapeChar, if_neg h1, if_neg h2, if_neg h3, if_neg h4,
                    if_neg h5, if_neg h6, if_neg h7, if_pos h8, List.cons_append,
                    List.nil_append, parseStrAux, h0, hexVal_hexChar hdiv,
                    hexVal_hexChar hmod, harith]
                  rw [if_pos hv, Char.ofNat_toNat]
                · have h9 : ¬ ('"' : Char) = c := fun hh => h1 hh.symm
                  have h10 : ¬ ('\\' : Char) = c := fun hh => h2 hh.symm
                  simp only [escapeChar, if_neg h1, if_neg h2, if_neg h3, if_neg h4,
                    if_neg h5, if_neg h6, if_neg h7, if_neg h8, List.cons_append,
                    List.nil_append]
                  rw [parseStrAux.eq_def]
                  split <;> simp_all

/-- Parsing the escaped form of a character list stops at the closing quote
and recovers the original characters. -/
theorem parseStrAux_flatMap (cs : List Char) (rest : List Char) :
    parseStrAux (cs.flatMap escapeChar ++ '"' :: rest) = some (cs, rest) := by
  induction cs with
  | nil => simp [parseStrAux]
  | cons c t ih =>
    rw [List.flatMap_cons, List.append_assoc, parseStrAux_escapeChar, ih]

mutual

/-- `serde_json::to_string`: compact printing, no whitespace. -/
def printJson : Json → List Char
  | .num n => intToChars n
  | .null => ['n', 'u', 'l', 'l']
  | .str s => printStr s
  | .bool true => ['t', 'r', 'u', 'e']
  | .arr xs => '[' :: (printItems xs ++ [']'])
  | .bool false => ['f', 'a', 'l', 's', 'e']
  | .obj fs => '{' :: (printFields fs ++ ['}'])

/-- Comma-separated array elements. -/
def printItems : List Json → List Char
  | [] => []
  | [x] => printJson x
  | x :: y :: t => printJson x ++ ',' :: printItems (y :: t)

/-- Comma-separated `"key":value` object members. -/
def printFields : List (String × Json) → List Char
  | [] => []
  | [(k, v)] => printStr k ++ ':' :: printJson v
  | (k, v) :: f :: t => printStr k ++ ':' :: printJson v ++ ',' :: printFields (f :: t)

end

/-- JSON insignificant whitespace (the exact set serde skips). -/
def isWsChar (c : Char) : Bool :=
  c = ' ' || c = '\t' || c = '\n' || c = '\r'

/-- Skip insignificant whitespace. -/
def skipWs : List Char → List Char
  | [] => []
  | c :: t => if isWsChar c then skipWs t else c :: t

mutual

/-- `serde_json::from_str`, value level: fuel-indexed recursive-descent
parser.  The fuel only bounds nesting of the recursion; `parseJson` below
supplies more than any input can consume.  Returns the value and the
unconsumed remainder. -/
def parseVal : Nat → List Char → Option (Json × List Char)
  | 0, _ => none
  | fuel + 1, cs =>
    match skipWs cs with
    | 'n' :: 'u' :: 'l' :: 'l' :: r => some (.null, r)
    | 't' :: 'r' :: 'u' :: 'e' :: r => some (.bool true, r)
    | 'f' :: 'a' :: 'l' :: 's' :: 'e' :: r => some (.bool false, r)
    | '"' :: r =>
      match parseStrAux r with
      | some (s, r1) => some (.str (String.mk s), r1)
      | none => none
    | '[' :: r =>
      match skipWs r with
      | ']' :: r1 => some (.arr [], r1)
      | _ =>
        match parseItems fuel r with
        | some (xs, r1) => some (.arr xs, r1)
        | none => none
    | '{' :: r =>
      match skipWs r with
      | '}' :: r1 => some (.obj [], r1)
      | _ =>
        match parseFields fuel r with
        | some (fs, r1) => some (.obj fs, r1)
        | none => none
    | c :: r =>
      if c = '-' ∨ c.isDigit then
        match parseIntChars (c :: r) with
        | some (n, r1) => some (.num n, r1)
        | none => none
      else none
    | [] => none

/-- One or more comma-separated elements, up to the closing `]`. -/
def parseItems : Nat → List Char → Option (List Json × List Char)
  | 0, _ => none
  | fuel + 1, cs =>
    match parseVal fuel cs with
    | none => none
    | some (v, r) =>
      match skipWs r with
      | ',' :: r1 =>
        match parseItems fuel r1 with
        | some (vs, r2) => some (v :: vs, r2)
        | none => none
      | ']' :: r1 => some ([v], r1)
      | _ => none

/-- One or more comma-separated members, up to the closing `}`. -/
def parseFields : Nat → List Char → Option (List (String × Json) × List Char)
  | 0, _ => none
  | fuel + 1, cs =>
    match skipWs cs with
    | '"' :: r =>
      match parseStrAux r with
      | none => none
      | some (k, r1) =>
        match skipWs r1 with
        | ':' :: r2 =>
          match parseVal fuel r2 with
          | none => none
          | some (v, r3) =>
            match skipWs r3 with
            | ',' :: r4 =>
              match parseFields fuel r4 with
              | some (fs, r5) => some ((String.mk k, v) :: fs, r5)
              | none => none
            | '}' :: r4 => some ([(String.mk k, v)], r4)
            | _ => none
        | _ => none
    | _ => none

end

/-- `serde_json::from_str`, document level: parse one value and require the
remainder to be whitespace only. -/
def parseJson (cs : List Char) : Option Json :=
  match parseVal (cs.length + 1) cs with
  | some (j, r) => if skipWs r = [] then some j else none
  | none => none

/-! ### The printer-parser round trip -/

theorem skipWs_cons_of_not_ws {c : Char} {t : List Char} (h : isWsChar c = false) :
    skipWs (c :: t) = c :: t := by
  simp [skipWs, h]

theorem isDigit_not_special {c : Char} (h : c.isDigit = true) :
    isWsChar c = false ∧ ¬ c = 'n' ∧ ¬ c = 't' ∧ ¬ c = 'f' ∧ ¬ c = '"'
      ∧ ¬ c = '[' ∧ ¬ c = '{' ∧ ¬ c = ']' ∧ ¬ c = '}' := by
  have hw : isWsChar c = false := by
    have h1 : ¬ c = ' ' := fun hh => by subst hh; exact absurd h (by decide)
    have h2 : ¬ c = '\t' := fun hh => by subst hh; exact absurd h (by decide)
    have h3 : ¬ c = '\n' := fun hh => by subst hh; exact absurd h (by decide)
    have h4 : ¬ c = '\r' := fun hh => by subst hh; exact absurd h (by decide)
    simp [isWsChar, h1, h2, h3, h4]
  refine ⟨hw, ?_, ?_, ?_, ?_, ?_, ?_, ?_, ?_⟩ <;>
    exact fun hh => by subst hh; exact absurd h (by decide)

theorem intToChars_head (n : Int) :
    ∃ c t, intToChars n = c :: t ∧ (c = '-' ∨ c.isDigit = true)
      ∧ isWsChar c = false ∧ ¬ c = 'n' ∧ ¬ c = 't' ∧ ¬ c = 'f' ∧ ¬ c = '"'
      ∧ ¬ c = '[' ∧ ¬ c = '{' ∧ ¬ c = ']' ∧ ¬ c = '}' := by
  by_cases hn : n < 0
  · exact ⟨'-', natToChars n.natAbs, by simp [intToChars, hn], Or.inl rfl,
      by decide, by decide, by decide, by decide, by decide, by decide, by decide,
      by decide, by decide⟩
  · obtain ⟨c, t, hct, hc⟩ := natToChars_head n.toNat
    obtain ⟨hw, h1, h2, h3, h4, h5, h6, h7, h8⟩ := isDigit_not_special hc
    exact ⟨c, t, by simp [intToChars, hn, hct], Or.inr hc,
      hw, h1, h2, h3, h4, h5, h6, h7, h8⟩

theorem printJson_head (j : Json) :
    ∃ c t, printJson j = c :: t ∧ isWsChar c = false ∧ ¬ c = ']' ∧ ¬ c = '}' := by
  cases j with
  | num n =>
    obtain ⟨c, t, hct, _, hw, _, _, _, _, _, _, h7, h8⟩ := intToChars_head n
    exact ⟨c, t, by simp [printJson, hct], hw, h7, h8⟩
  | bool b =>
    cases b with
    | false => exact ⟨'f', _, rfl, by decide⟩
    | true => exact ⟨'t', _, rfl, by decide⟩
  | null => exact ⟨'n', _, rfl, by decide⟩
  | str s => exact ⟨'"', _, rfl, by decide⟩
  | arr xs => exact ⟨'[', _, rfl, by decide⟩
  | obj fs => exact ⟨'{', _, rfl, by decide⟩

theorem printItems_head (x : Json) (xs : List Json) :
    ∃ c t, printItems (x :: xs) = c :: t ∧ isWsChar c = false ∧ ¬ c = ']' := by
  obtain ⟨c, t, hct, hw, hb, _⟩ := printJson_head x
  cases xs with
  | nil => exact ⟨c, t, by simp [printItems, hct], hw, hb⟩
  | cons y ys =>
    exact ⟨c, t ++ ',' :: printItems (y :: ys), by simp [printItems, hct], hw, hb⟩

theorem printJson_length_pos (j : Json) : 0 < (printJson j).length := by
  obtain ⟨c, t, hct, _, _, _⟩ := printJson_head j
  rw [hct]
  simp

theorem printStr_length_ge (s : String) : 2 ≤ (printStr s).length := by
  simp [printStr]

/-- The parser's fall-through into the number branch, for any head character
that is a minus sign or digit. -/
theorem parseVal_num_dispatch (fuel : Nat) (c : Char) (t : List Char)
    (hws : isWsChar c = false) (h1 : ¬ c = 'n') (h2 : ¬ c = 't') (h3 : ¬ c = 'f')
    (h4 : ¬ c = '"') (h5 : ¬ c = '[') (h6 : ¬ c = '{')
    (hnum : c = '-' ∨ c.isDigit = true) :
    parseVal (fuel + 1) (c :: t)
      = match parseIntChars (c :: t) with
        | some (n, r1) => some (.num n, r1)
        | none => none := by
  simp only [parseVal, skipWs_cons_of_not_ws hws]
  split <;> simp_all
  intro hc hd
  rcases hnum with hh | hh
  · exact absurd hh hc
  · simp [hh] at hd

theorem printFields_head (k : String) (v : Json) (fs : List (String × Json)) :
    ∃ t2, printFields ((k, v) :: fs) = '"' :: t2 := by
  cases fs with
  | nil =>
    refine ⟨k.data.flatMap escapeChar ++ '"' :: ':' :: printJson v, ?_⟩
    simp [printFields, printStr]
  | cons f2 t2 =>
    refine ⟨k.data.flatMap escapeChar
      ++ '"' :: ':' :: (printJson v ++ ',' :: printFields (f2 :: t2)), ?_⟩
    simp [printFields, printStr]

mutual

theorem rt_parseVal : ∀ (fuel : Nat) (j : Json) (rest : List Char),
    (printJson j).length < fuel → noDigitHead rest = true →
    parseVal fuel (printJson j ++ rest) = some (j, rest)
  | 0, j, rest => by
    intro hf _
    exact absurd hf (by omega)
  | fuel + 1, j, rest => by
    intro hf hrest
    cases j with
    | null => rfl
    | bool b => cases b <;> rfl
    | num n =>
      obtain ⟨c, t, hct, hnum, hw, h1, h2, h3, h4, h5, h6, _, _⟩ := intToChars_head n
      have hpj : printJson (.num n) = intToChars n := rfl
      rw [hpj, hct, List.cons_append,
        parseVal_num_dispatch fuel c (t ++ rest) hw h1 h2 h3 h4 h5 h6 hnum,
        ← List.cons_append, ← hct, parseIntChars_intToChars n rest hrest]
    | str s =>
      have hpj : printJson (.str s) ++ rest
          = '"' :: (s.data.flatMap escapeChar ++ '"' :: rest) := by
        simp [printJson, printStr]
      rw [hpj]
      have hstep : parseVal (fuel + 1) ('"' :: (s.data.flatMap escapeChar ++ '"' :: rest))
          = match parseStrAux (s.data.flatMap escapeChar ++ '"' :: rest) with
            | some (s1, r1) => some (.str (String.mk s1), r1)
            | none => none := rfl
      rw [hstep, parseStrAux_flatMap]
    | arr xs =>
      cases xs with
      | nil => rfl
      | cons x t =>
        have hpj : printJson (.arr (x :: t)) ++ rest
            = '[' :: (printItems (x :: t) ++ ']' :: rest) := by
          simp [printJson]
        rw [hpj]
        have hstep : parseVal (fuel + 1) ('[' :: (printItems (x :: t) ++ ']' :: rest))
            = match skipWs (printItems (x :: t) ++ ']' :: rest) with
              | ']' :: r1 => some (.arr [], r1)
              | _ =>
                match parseItems fuel (printItems (x :: t) ++ ']' :: rest) with
                | some (xs1, r1) => some (.arr xs1, r1)
                | none => none := rfl
        obtain ⟨c, t1, hct, hw, hb⟩ := printItems_head x t
        have hsw : skipWs (printItems (x :: t) ++ ']' :: rest)
            = c :: (t1 ++ ']' :: rest) := by
          rw [hct, List.cons_append, skipWs_cons_of_not_ws hw]
        have hlen : (printItems (x :: t)).length + 1 < fuel := by
          have hh : (printJson (.arr (x :: t))).length
              = (printItems (x :: t)).length + 2 := by simp [printJson]
          omega
        have hitems := rt_parseItems fuel x t rest hlen
        rw [hstep, hsw]
        split
        · rename_i r1 heq
          rw [List.cons_eq_cons] at heq
          exact absurd heq.1 hb
        · rw [hitems]
    | obj fs =>
      cases fs with
      | nil => rfl
      | cons kv t =>
        obtain ⟨k, v⟩ := kv
        have hpj : printJson (.obj ((k, v) :: t)) ++ rest
            = '{' :: (printFields ((k, v) :: t) ++ '}' :: rest) := by
          simp [printJson]
        rw [hpj]
        have hstep : parseVal (fuel + 1) ('{' :: (printFields ((k, v) :: t) ++ '}' :: rest))
            = match skipWs (printFields ((k, v) :: t) ++ '}' :: rest) with
              | '}' :: r1 => some (.obj [], r1)
              | _ =>
                match parseFields fuel (printFields ((k, v) :: t) ++ '}' :: rest) with
                | some (fs1, r1) => some (.obj fs1, r1)
                | none => none := rfl
        obtain ⟨t2, ht2⟩ := printFields_head k v t
        have hsw : skipWs (printFields ((k, v) :: t) ++ '}' :: rest)
            = '"' :: (t2 ++ '}' :: rest) := by
          rw [ht2, List.cons_append, skipWs_cons_of_not_ws (by decide)]
        have hlen : (printFields ((k, v) :: t)).length + 1 < fuel := by
          have hh : (printJson (.obj ((k, v) :: t))).length
              = (printFields ((k, v) :: t)).length + 2 := by simp [printJson]
          omega
        have hflds := rt_parseFields fuel k v t rest hlen
        rw [hstep, hsw]
        split
        · rename_i r1 heq
          rw [List.cons_eq_cons] at heq
          exact absurd heq.1 (by decide)
        · rw [hflds]

theorem rt_parseItems : ∀ (fuel : Nat) (x : Json) (xs : List Json) (rest : List Char),
    (printItems (x :: xs)).length + 1 < fuel →
    parseItems fuel (printItems (x :: xs) ++ ']' :: rest) = some (x :: xs, rest)
  | 0, x, xs, rest => by
    intro hf
    exact absurd hf (by omega)
  | fuel + 1, x, xs, rest => by
    intro hf
    cases xs with
    | nil =>
      have hx : (printJson x).length < fuel := by
        have hh : (printItems [x]).length = (printJson x).length := by simp [printItems]
        omega
      have hv := rt_parseVal fuel x (']' :: rest) hx rfl
      have hpi : printItems [x] = printJson x := rfl
      have hstep : parseItems (fuel + 1) (printJson x ++ ']' :: rest)
          = match parseVal fuel (printJson x ++ ']' :: rest) with
            | none => none
            | some (v, r) =>
              match skipWs r with
              | ',' :: r1 =>
                match parseItems fuel r1 with
                | some (vs, r2) => some (v :: vs, r2)
                | none => none
              | ']' :: r1 => some ([v], r1)
              | _ => none := rfl
      rw [hpi, hstep, hv]
      rfl
    | cons y ys =>
      have hsplit : printItems (x :: y :: ys) ++ ']' :: rest
          = printJson x ++ (',' :: (printItems (y :: ys) ++ ']' :: rest)) := by
        simp [printItems]
      have hlen : (printItems (x :: y :: ys)).length
          = (printJson x).length + 1 + (printItems (y :: ys)).length := by
        simp only [printItems, List.length_append, List.length_cons]; omega
      have hx : (printJson x).length < fuel := by
        have := printJson_length_pos y
        omega
      have hys : (printItems (y :: ys)).length + 1 < fuel := by
        have := printJson_length_pos x
        omega
      have hv := rt_parseVal fuel x (',' :: (printItems (y :: ys) ++ ']' :: rest)) hx rfl
      have hrec := rt_parseItems fuel y ys rest hys
      have hstep : parseItems (fuel + 1)
            (printJson x ++ (',' :: (printItems (y :: ys) ++ ']' :: rest)))
          = match parseVal fuel
              (printJson x ++ (',' :: (printItems (y :: ys) ++ ']' :: rest))) with
            | none => none
            | some (v, r) =>
              match skipWs r with
              | ',' :: r1 =>
                match parseItems fuel r1 with
                | some (vs, r2) => some (v :: vs, r2)
                | none => none
              | ']' :: r1 => some ([v], r1)
              | _ => none := rfl
      rw [hsplit, hstep, hv]
      show (match parseItems fuel (printItems (y :: ys) ++ ']' :: rest) with
            | some (vs, r2) => some (x :: vs, r2)
            | none => none) = some (x :: y :: ys, rest)
      rw [hrec]

theorem rt_parseFields : ∀ (fuel : Nat) (k : String) (v : Json)
    (fs : List (String × Json)) (rest : List Char),
    (printFields ((k, v) :: fs)).length + 1 < fuel →
    parseFields fuel (printFields ((k, v) :: fs) ++ '}' :: rest)
      = some ((k, v) :: fs, rest)
  | 0, k, v, fs, rest => by
    intro hf
    exact absurd hf (by omega)
  | fuel + 1, k, v, fs, rest => by
    intro hf
    cases fs with
    | nil =>
      have hsplit : printFields [(k, v)] ++ '}' :: rest
          = '"' :: (k.data.flatMap escapeChar
              ++ '"' :: (':' :: (printJson v ++ '}' :: rest))) := by
        simp [printFields, printStr]
      have hlen : (printFields [(k, v)]).length
          = (printStr k).length + 1 + (printJson v).length := by
        simp only [printFields, List.length_append, List.length_cons]; omega
      have hv : (printJson v).length < fuel := by
        have := printStr_length_ge k
        omega
      have hval := rt_parseVal fuel v ('}' :: rest) hv rfl
      have hstep : parseFields (fuel + 1) ('"' :: (k.data.flatMap escapeChar
            ++ '"' :: (':' :: (printJson v ++ '}' :: rest))))
          = match parseStrAux (k.data.flatMap escapeChar
              ++ '"' :: (':' :: (printJson v ++ '}' :: rest))) with
            | none => none
            | some (k1, r1) =>
              match skipWs r1 with
              | ':' :: r2 =>
                match parseVal fuel r2 with
                | none => none
                | some (v1, r3) =>
                  match skipWs r3 with
                  | ',' :: r4 =>
                    match parseFields fuel r4 with
                    | some (fs1, r5) => some ((String.mk k1, v1) :: fs1, r5)
                    | none => none
                  | '}' :: r4 => some ([(String.mk k1, v1)], r4)
                  | _ => none
              | _ => none
            := rfl
      rw [hsplit, hstep, parseStrAux_flatMap]
      show (match parseVal fuel (printJson v ++ '}' :: rest) with
            | none => none
            | some (v1, r3) =>
              match skipWs r3 with
              | ',' :: r4 =>
                match parseFields fuel r4 with
                | some (fs1, r5) => some ((String.mk k.data, v1) :: fs1, r5)
                | none => none
              | '}' :: r4 => some ([(String.mk k.data, v1)], r4)
              | _ => none) = some ([(k, v)], rest)
      rw [hval]
      rfl
    | cons kv2 t2 =>
      obtain ⟨k2, v2⟩ := kv2
      have hsplit : printFields ((k, v) :: (k2, v2) :: t2) ++ '}' :: rest
          = '"' :: (k.data.flatMap escapeChar
              ++ '"' :: (':' :: (printJson v
                ++ ',' :: (printFields ((k2, v2) :: t2) ++ '}' :: rest)))) := by
        simp [printFields, printStr]
      have hlen : (printFields ((k, v) :: (k2, v2) :: t2)).length
          = (printStr k).length + 1 + (printJson v).length + 1
            + (printFields ((k2, v2) :: t2)).length := by
        simp only [printFields, List.length_append, List.length_cons]; omega
      have hv : (printJson v).length < fuel := by
        have := printStr_length_ge k
        omega
      have ht2 : (printFields ((k2, v2) :: t2)).length + 1 < fuel := by
        have := printStr_length_ge k
        have := printJson_length_pos v
        omega
      have hval := rt_parseVal fuel v
        (',' :: (printFields ((k2, v2) :: t2) ++ '}' :: rest)) hv rfl
      have hrec := rt_parseFields fuel k2 v2 t2 rest ht2
      have hstep : parseFields (fuel + 1) ('"' :: (k.data.flatMap escapeChar
            ++ '"' :: (':' :: (printJson v
              ++ ',' :: (printFields ((k2, v2) :: t2) ++ '}' :: rest)))))
          = match parseStrAux (k.data.flatMap escapeChar
              ++ '"' :: (':' :: (printJson v
                ++ ',' :: (printFields ((k2, v2) :: t2) ++ '}' :: rest)))) with
            | none => none
            | some (k1, r1) =>
              match skipWs r1 with
              | ':' :: r2 =>
                match parseVal fuel r2 with
                | none => none
                | some (v1, r3) =>
                  match skipWs r3 with
                  | ',' :: r4 =>
                    match parseFields fuel r4 with
                    | some (fs1, r5) => some ((String.mk k1, v1) :: fs1, r5)
                    | none => none
                  | '}' :: r4 => some ([(String.mk k1, v1)], r4)
                  | _ => none
              | _ => none
            := rfl
      rw [hsplit, hstep, parseStrAux_flatMap]
      show (match parseVal fuel (printJson v
              ++ ',' :: (printFields ((k2, v2) :: t2) ++ '}' :: rest)) with
            | none => none
            | some (v1, r3) =>
              match skipWs r3 with
              | ',' :: r4 =>
                match parseFields fuel r4 with
                | some (fs1, r5) => some ((String.mk k.data, v1) :: fs1, r5)
                | none => none
              | '}' :: r4 => some ([(String.mk k.data, v1)], r4)
              | _ => none) = some ((k, v) :: (k2, v2) :: t2, rest)
      rw [hval]
      show (match parseFields fuel (printFields ((k2, v2) :: t2) ++ '}' :: rest) with
            | some (fs1, r5) => some ((String.mk k.data, v) :: fs1, r5)
            | none => none) = some ((k, v) :: (k2, v2) :: t2, rest)
      rw [hrec]

end

/-- The document-level JSON round trip. -/
theorem parseJson_printJson (j : Json) : parseJson (printJson j) = some j := by
  have h := rt_parseVal ((printJson j).length + 1) j [] (by omega) rfl
  rw [List.append_nil] at h
  unfold parseJson
  rw [h]
  rfl

/-! ## JSON-RPC messages

The `JsonRpcMessage` / `JsonRpcRequest` / `JsonRpcResponse` /
`JsonRpcNotification` / `JsonRpcError` structs of `src/lsp_async.rs`,
together with their serde serialization:

* field order as declared; `#[serde(skip_serializing_if = "Option::is_none")]`
  on `result`, `error` and `data`; `params` (an `Option<Value>` without a skip
  attribute) serialises `None` as JSON `null`;
* `#[serde(untagged)]` deserialization tries `Request`, then `Response`, then
  `Notification`, first success wins; unknown object fields are ignored, a
  field holding `null` deserialises into an `Option<Value>` as `None`. -/

structure JsonRpcError where
  code : Int
  message : String
  data : Option Json

structure JsonRpcRequest where
  jsonrpc : String
  id : Int
  method : String
  params : Option Json

structure JsonRpcResponse where
  jsonrpc : String
  id : Int
  result : Option Json
  error : Option JsonRpcError

structure JsonRpcNotification where
  jsonrpc : String
  method : String
  params : Option Json

inductive JsonRpcMessage where
  | request (r : JsonRpcRequest)
  | response (r : JsonRpcResponse)
  | notification (n : JsonRpcNotification)

/-- serde serialization of an `Option<Value>` field without a skip attribute:
`None` becomes JSON `null`. -/
def optValueJson : Option Json → Json
  | none => .null
  | some v => v

def errorToJson (e : JsonRpcError) : Json :=
  .obj ([("code", .num e.code), ("message", .str e.message)]
    ++ (match e.data with | none => [] | some d => [("data", d)]))

def requestToJson (r : JsonRpcRequest) : Json :=
  .obj [("jsonrpc", .str r.jsonrpc), ("id", .num r.id), ("method", .str r.method),
    ("params", optValueJson r.params)]

def responseToJson (r : JsonRpcResponse) : Json :=
  .obj ([("jsonrpc", .str r.jsonrpc), ("id", .num r.id)]
    ++ (match r.result with | none => [] | some v => [("result", v)])
    ++ (match r.error with | none => [] | some e => [("error", errorToJson e)]))

def notificationToJson (n : JsonRpcNotification) : Json :=
  .obj [("jsonrpc", .str n.jsonrpc), ("method", .str n.method),
    ("params", optValueJson n.params)]

def messageToJson : JsonRpcMessage → Json
  | .request r => requestToJson r
  | .response r => responseToJson r
  | .notification n => notificationToJson n

def getField (fs : List (String × Json)) (k : String) : Option Json := lookupA fs k

def asObj : Json → Option (List (String × Json))
  | .obj fs => some fs
  | _ => none

def asStr : Json → Option String
  | .str s => some s
  | _ => none

def asInt : Json → Option Int
  | .num n => some n
  | _ => none

def asArr : Json → Option (List Json)
  | .arr xs => some xs
  | _ => none

/-- serde deserialization of an `Option<Value>` field: a missing field and an
explicit `null` both give `None`; this never fails. -/
def optField (fs : List (String × Json)) (k : String) : Option Json :=
  match getField fs k with
  | none => none
  | some .null => none
  | some v => some v

def requestFromJson (j : Json) : Option JsonRpcRequest := do
  let fs ← asObj j
  let jr ← getField fs "jsonrpc" >>= asStr
  let i ← getField fs "id" >>= asInt
  let m ← getField fs "method" >>= asStr
  some { jsonrpc := jr, id := i, method := m, params := optField fs "params" }

def errorFromJson (j : Json) : Option JsonRpcError := do
  let fs ← asObj j
  let c ← getField fs "code" >>= asInt
  let m ← getField fs "message" >>= asStr
  some { code := c, message := m, data := optField fs "data" }

def responseFromJson (j : Json) : Option JsonRpcResponse := do
  let fs ← asObj j
  let jr ← getField fs "jsonrpc" >>= asStr
  let i ← getField fs "id" >>= asInt
  let e ← match getField fs "error" with
    | none => some none
    | some .null => some none
    | some v => (errorFromJson v).map some
  some { jsonrpc := jr, id := i, result := optField fs "result", error := e }

def notificationFromJson (j : Json) : Option JsonRpcNotification := do
  let fs ← asObj j
  let jr ← getField fs "jsonrpc" >>= asStr
  let m ← getField fs "method" >>= asStr
  some { jsonrpc := jr, method := m, params := optField fs "params" }

/-- `#[serde(untagged)]` resolution order: Request, Response, Notification. -/
def messageFromJson (j : Json) : Option JsonRpcMessage :=
  match requestFromJson j with
  | some r => some (.request r)
  | none =>
    match responseFromJson j with
    | some r => some (.response r)
    | none =>
      match notificationFromJson j with
      | some n => some (.notification n)
      | none => none

/-- `true` iff the message stores no explicit JSON `null` in an optional
`Value` slot.  A `Some(Value::Null)` in `params` / `result` / `error.data`
serialises to `null` and deserialises back to `None`, so such messages do not
survive the round trip unchanged; every message the client actually builds
satisfies this predicate. -/
def noNullOpt : JsonRpcMessage → Bool
  | .request r => (match r.params with | some .null => false | _ => true)
  | .response r =>
    (match r.result with | some .null => false | _ => true)
      && (match r.error with
          | none => true
          | some e => (match e.data with | some .null => false | _ => true))
  | .notification n => (match n.params with | some .null => false | _ => true)

theorem requestFromJson_toJson (r : JsonRpcRequest)
    (h : noNullOpt (.request r) = true) :
    requestFromJson (requestToJson r) = some r := by
  obtain ⟨jr, i, m, p⟩ := r
  cases p with
  | none =>
    simp [requestToJson, requestFromJson, asObj, getField, asStr, asInt, optField,
      optValueJson, lookupA]
  | some v =>
    rw [noNullOpt] at h
    cases v <;>
      simp_all [requestToJson, requestFromJson, asObj, getField, asStr, asInt, optField,
        optValueJson, lookupA]

theorem errorFromJson_toJson (e : JsonRpcError)
    (h : (match e.data with | some .null => false | _ => true) = true) :
    errorFromJson (errorToJson e) = some e := by
  obtain ⟨c, m, d⟩ := e
  cases d with
  | none =>
    simp [errorToJson, errorFromJson, asObj, getField, asStr, asInt, optField, lookupA]
  | some v =>
    cases v <;>
      simp_all [errorToJson, errorFromJson, asObj, getField, asStr, asInt, optField,
        lookupA]

theorem responseFromJson_toJson (r : JsonRpcResponse)
    (h : noNullOpt (.response r) = true) :
    responseFromJson (responseToJson r) = some r := by
  obtain ⟨jr, i, res, err⟩ := r
  simp only [noNullOpt] at h
  cases err with
  | none =>
    cases res with
    | none =>
      simp [responseToJson, responseFromJson, asObj, getField, asStr, asInt, optField,
        lookupA]
    | some v =>
      cases v <;>
        simp_all [responseToJson, responseFromJson, asObj, getField, asStr, asInt,
          optField, lookupA]
  | some e =>
    obtain ⟨c, m, d⟩ := e
    have he : errorFromJson (errorToJson ⟨c, m, d⟩) = some ⟨c, m, d⟩ := by
      apply errorFromJson_toJson
      cases d with
      | none => rfl
      | some v => cases v <;> simp_all
    cases res with
    | none =>
      simp_all [responseToJson, responseFromJson, asObj, getField, asStr, asInt,
        optField, lookupA, errorToJson]
    | some v =>
      cases v <;>
        simp_all [responseToJson, responseFromJson, asObj, getField, asStr, asInt,
          optField, lookupA, errorToJson]

theorem notificationFromJson_toJson (n : JsonRpcNotification)
    (h : noNullOpt (.notification n) = true) :
    notificationFromJson (notificationToJson n) = some n := by
  obtain ⟨jr, m, p⟩ := n
  cases p with
  | none =>
    simp [notificationToJson, notificationFromJson, asObj, getField, asStr, optField,
      optValueJson, lookupA]
  | some v =>
    rw [noNullOpt] at h
    cases v <;>
      simp_all [notificationToJson, notificationFromJson, asObj, getField, asStr,
        optField, optValueJson, lookupA]

/-- A serialized Response is never mistaken for a Request: it has no
`method` field. -/
theorem requestFromJson_responseToJson (r : JsonRpcResponse) :
    requestFromJson (responseToJson r) = none := by
  obtain ⟨jr, i, res, err⟩ := r
  cases res <;> cases err <;>
    simp [responseToJson, requestFromJson, asObj, getField, asStr, asInt, lookupA]

/-- A serialized Notification is never mistaken for a Request: no `id`. -/
theorem requestFromJson_notificationToJson (n : JsonRpcNotification) :
    requestFromJson (notificationToJson n) = none := by
  obtain ⟨jr, m, p⟩ := n
  simp [notificationToJson, requestFromJson, asObj, getField, asStr, asInt, lookupA]

/-- A serialized Notification is never mistaken for a Response: no `id`. -/
theorem responseFromJson_notificationToJson (n : JsonRpcNotification) :
    responseFromJson (notificationToJson n) = none := by
  obtain ⟨jr, m, p⟩ := n
  simp [notificationToJson, responseFromJson, asObj, getField, asStr, asInt, lookupA]

/-- The message-level round trip through untagged serde (de)serialization,
for messages with no explicit `null` in an optional `Value` slot. -/
theorem messageFromJson_toJson (m : JsonRpcMessage) (h : noNullOpt m = true) :
    messageFromJson (messageToJson m) = some m := by
  cases m with
  | request r =>
    rw [messageToJson, messageFromJson, requestFromJson_toJson r h]
  | response r =>
    rw [messageToJson, messageFromJson, requestFromJson_responseToJson r,
      responseFromJson_toJson r h]
  | notification n =>
    rw [messageToJson, messageFromJson, requestFromJson_notificationToJson n,
      responseFromJson_notificationToJson n, notificationFromJson_toJson n h]

/-! ## The wire codec (`LspTask::write_message` / `LspTask::read_message`)

Frames are `"Content-Length: {n}\r\n\r\n{json}"` on the child process's
stdin/stdout, where `n` is the byte length of the JSON text.  The byte
stream is a `List Nat`. -/

/-- `LspTask::write_message`: serialize the message with `serde_json`, then
write the bytes of `format!("Content-Length: {}\r\n\r\n{}", json.len(), json)`
to the child's stdin. -/
def write_message (m : JsonRpcMessage) : List Nat :=
  utf8Encode ("Content-Length: ".data
    ++ natToChars (utf8Encode (printJson (messageToJson m))).length
    ++ "\r\n\r\n".data
    ++ printJson (messageToJson m))

/-- The header-name marker the reader recognises (16 characters; the source
slices `line[16..]` after `line.starts_with("Content-Length: ")`). -/
def content_length_marker : List Char := "Content-Length: ".data

/-- Split one line — up to and including the first `\n` byte — off the
stream, as tokio's `read_line` consumes it.  At end of input the remainder
(with no newline) is returned whole. -/
def splitLine : List Nat → List Nat × List Nat
  | [] => ([], [])
  | b :: r =>
    if b = 10 then ([b], r)
    else
      let (l, rest) := splitLine r
      (b :: l, rest)

/-- `str::trim` on the characters a header line can hold (ASCII whitespace;
Rust trims general Unicode whitespace, of which only these occur here). -/
def trimChars (cs : List Char) : List Char :=
  ((cs.dropWhile fun c => isWsChar c).reverse.dropWhile fun c => isWsChar c).reverse

/-- The header loop of `read_message`: read lines until the blank `"\r\n"`
line, remembering the value of the last `Content-Length` header.  The fuel is
one unit per line read; `read_message` supplies more than any input can use,
and exhausting it models the source's infinite wait at end of input as a read
error. -/
def read_headers : Nat → List Nat → Option Nat → Except String (Nat × List Nat)
  | 0, _, _ => .error "Failed to read from stdout"
  | fuel + 1, bs, acc =>
    match utf8Decode (splitLine bs).1 with
    | none => .error "Failed to read from stdout"
    | some line =>
      if line = ['\r', '\n'] then
        match acc with
        | some n => .ok (n, (splitLine bs).2)
        | none => .error "Missing Content-Length header"
      else if content_length_marker.isPrefixOf line then
        match parseNatStr (trimChars (line.drop 16)) with
        | some n => read_headers fuel (splitLine bs).2 (some n)
        | none => .error "Invalid Content-Length"
      else read_headers fuel (splitLine bs).2 acc

/-- `LspTask::read_message`: consume header lines until the blank line, read
exactly `Content-Length` bytes, decode them as UTF-8 and deserialize the
JSON-RPC message.  Returns the message and the unconsumed remainder of the
stream. -/
def read_message (bs : List Nat) : Except String (JsonRpcMessage × List Nat) :=
  match read_headers (bs.length + 1) bs none with
  | .error e => .error e
  | .ok (n, rest) =>
    if rest.length < n then .error "Failed to read content"
    else
      match utf8Decode (rest.take n) with
      | none => .error "Invalid UTF-8"
      | some json =>
        match parseJson json with
        | some j =>
          match messageFromJson j with
          | some m => .ok (m, rest.drop n)
          | none => .error "Failed to deserialize message"
        | none => .error "Failed to deserialize message"

/-! ### Reading back a written frame -/

theorem splitLine_append {pre : List Nat} (rest : List Nat)
    (h : ∀ b ∈ pre, ¬ b = 10) :
    splitLine (pre ++ 10 :: rest) = (pre ++ [10], rest) := by
  induction pre with
  | nil => simp [splitLine]
  | cons b t ih =>
    have hb : ¬ b = 10 := h b (by simp)
    have ht := ih (fun x hx => h x (by simp [hx]))
    simp [splitLine, hb, ht]

theorem utf8Decode_map_toNat (s : List Char) (h : ∀ c ∈ s, c.toNat < 128) :
    utf8Decode (s.map Char.toNat) = some s := by
  rw [← utf8Encode_ascii s h, utf8Decode_encode]

theorem natToChars_toNat_bounds (n : Nat) :
    ∀ c ∈ natToChars n, 48 ≤ c.toNat ∧ c.toNat ≤ 57 := by
  induction n using Nat.strongRecOn with
  | _ n ih =>
    rw [natToChars_unfold]
    by_cases h : n < 10
    · simp only [if_pos h, List.mem_singleton]
      rintro c rfl
      rw [digitChar_toNat h]
      omega
    · simp only [if_neg h, List.mem_append, List.mem_singleton]
      rintro c (hc | rfl)
      · exact ih (n / 10) (by omega) c hc
      · rw [digitChar_toNat (by omega)]
        omega

/-- The characters of the header line `"Content-Length: {n}\r"`, before the
final newline. -/
def clPre (n : Nat) : List Char :=
  content_length_marker ++ natToChars n ++ ['\r']

theorem clPre_ascii (n : Nat) : ∀ c ∈ clPre n, c.toNat < 128 := by
  intro c hc
  rw [clPre, List.append_assoc] at hc
  rcases List.mem_append.mp hc with hm | hm
  · exact (by decide : ∀ c ∈ content_length_marker, c.toNat < 128) c hm
  · rcases List.mem_append.mp hm with hd | hd
    · have := natToChars_toNat_bounds n c hd
      omega
    · rw [List.mem_singleton] at hd
      subst hd
      decide

theorem clPre_no_newline (n : Nat) : ∀ b ∈ (clPre n).map Char.toNat, ¬ b = 10 := by
  intro b hb
  rw [List.mem_map] at hb
  obtain ⟨c, hc, rfl⟩ := hb
  rw [clPre, List.append_assoc] at hc
  rcases List.mem_append.mp hc with hm | hm
  · exact (by decide : ∀ c ∈ content_length_marker, ¬ c.toNat = 10) c hm
  · rcases List.mem_append.mp hm with hd | hd
    · have := natToChars_toNat_bounds n c hd
      omega
    · rw [List.mem_singleton] at hd
      subst hd
      decide

theorem trimChars_digits_crlf (ds : List Char) (h : ∀ c ∈ ds, isWsChar c = false) :
    trimChars (ds ++ ['\r', '\n']) = ds := by
  cases ds with
  | nil => decide
  | cons d t =>
    unfold trimChars
    have hd : isWsChar d = false := h d (by simp)
    have hdw : ((d :: t) ++ ['\r', '\n']).dropWhile (fun c => isWsChar c)
        = (d :: t) ++ ['\r', '\n'] := by
      simp [List.dropWhile_cons, hd]
    rw [hdw]
    have hrev : ((d :: t) ++ ['\r', '\n']).reverse = '\n' :: '\r' :: (d :: t).reverse := by
      simp
    rw [hrev]
    have hws1 : isWsChar '\n' = true := by decide
    have hws2 : isWsChar '\r' = true := by decide
    simp only [List.dropWhile_cons, hws1, hws2, if_true]
    have hdrop : (d :: t).reverse.dropWhile (fun c => isWsChar c) = (d :: t).reverse := by
      cases hrv : (d :: t).reverse with
      | nil => rfl
      | cons a y =>
        have ha : a ∈ d :: t := by
          have hm : a ∈ (d :: t).reverse := by rw [hrv]; simp
          exact List.mem_reverse.mp hm
        have := h a ha
        simp [List.dropWhile_cons, this]
    rw [hdrop, List.reverse_reverse]

theorem natToChars_not_ws (n : Nat) : ∀ c ∈ natToChars n, isWsChar c = false :=
  fun c hc => (isDigit_not_special (natToChars_all_digits n c hc)).1

/-- Reading the header section of a well-formed frame yields its advertised
content length and leaves exactly the body. -/
theorem read_headers_frame (fuel n : Nat) (tail : List Nat) :
    read_headers (fuel + 2) ((clPre n).map Char.toNat ++ 10 :: (13 :: 10 :: tail)) none
      = .ok (n, tail) := by
  have hsplit := @splitLine_append ((clPre n).map Char.toNat)
    (13 :: 10 :: tail) (clPre_no_newline n)
  have hdec : utf8Decode ((clPre n).map Char.toNat ++ [10])
      = some (clPre n ++ ['\n']) := by
    have : (clPre n).map Char.toNat ++ [10] = (clPre n ++ ['\n']).map Char.toNat := by
      simp
    rw [this]
    apply utf8Decode_map_toNat
    intro c hc
    rcases List.mem_append.mp hc with hm | hm
    · exact clPre_ascii n c hm
    · rw [List.mem_singleton] at hm
      subst hm
      decide
  have hline : clPre n ++ ['\n']
      = content_length_marker ++ (natToChars n ++ ['\r', '\n']) := by
    simp [clPre]
  have hne : ¬ (clPre n ++ ['\n']) = ['\r', '\n'] := by
    intro hh
    have hlen := congrArg List.length hh
    have hpos : 0 < (natToChars n).length := List.length_pos.mpr (natToChars_ne_nil n)
    rw [clPre] at hlen
    have h16 : content_length_marker.length = 16 := rfl
    simp only [List.length_append, List.length_cons, List.length_nil] at hlen
    omega
  have hpre : content_length_marker.isPrefixOf (clPre n ++ ['\n']) = true := by
    rw [hline, List.isPrefixOf_iff_prefix]
    exact List.prefix_append _ _
  have hdrop : (clPre n ++ ['\n']).drop 16 = natToChars n ++ ['\r', '\n'] := by
    rw [hline]
    have h16 : (16 : Nat) = content_length_marker.length := rfl
    rw [h16, List.drop_left]
  show read_headers ((fuel + 1) + 1) _ none = _
  rw [read_headers, hsplit]
  simp only
  rw [hdec]
  simp only
  rw [if_neg hne, if_pos hpre, hdrop, trimChars_digits_crlf _ (natToChars_not_ws n),
    parseNatStr_natToChars]
  show read_headers (fuel + 1) (13 :: 10 :: tail) (some n) = .ok (n, tail)
  have hsplit2 : splitLine (13 :: 10 :: tail) = ([13, 10], tail) := by
    simp [splitLine]
  rw [read_headers, hsplit2]
  simp only
  have hdec2 : utf8Decode [13, 10] = some ['\r', '\n'] := rfl
  rw [hdec2]
  simp only
  simp

/-- The UTF-8 bytes of the frame header `"Content-Length: {n}\r\n\r\n"`. -/
theorem frame_header_bytes (n : Nat) :
    utf8Encode (content_length_marker ++ natToChars n ++ "\r\n\r\n".data)
      = (clPre n).map Char.toNat ++ 10 :: (13 :: 10 :: []) := by
  have hchars : content_length_marker ++ natToChars n ++ "\r\n\r\n".data
      = (clPre n ++ ['\n', '\r', '\n']) := by
    simp [clPre]
  rw [hchars, utf8Encode_append]
  have h1 : utf8Encode (clPre n) = (clPre n).map Char.toNat :=
    utf8Encode_ascii _ (clPre_ascii n)
  have h2 : utf8Encode ['\n', '\r', '\n'] = [10, 13, 10] := rfl
  rw [h1, h2]

/-- `write_message` emits exactly the frame bytes: the UTF-8 of
`"Content-Length: {n}\r\n\r\n"` followed by the `n` JSON bytes. -/
theorem write_message_bytes (m : JsonRpcMessage) :
    write_message m
      = (clPre (utf8Encode (printJson (messageToJson m))).length).map Char.toNat
        ++ 10 :: (13 :: 10 :: utf8Encode (printJson (messageToJson m))) := by
  unfold write_message
  have hsplit : "Content-Length: ".data
        ++ natToChars (utf8Encode (printJson (messageToJson m))).length
        ++ "\r\n\r\n".data ++ printJson (messageToJson m)
      = (content_length_marker
          ++ natToChars (utf8Encode (printJson (messageToJson m))).length
          ++ "\r\n\r\n".data) ++ printJson (messageToJson m) := by
    simp [content_length_marker]
  rw [hsplit, utf8Encode_append, frame_header_bytes]
  simp

/-- Reading a frame written by `write_message` (with anything following it on
the stream) returns the original message and consumes exactly the frame. -/
theorem read_message_write_message (m : JsonRpcMessage) (extra : List Nat)
    (h : noNullOpt m = true) :
    read_message (write_message m ++ extra) = .ok (m, extra) := by
  have hw := write_message_bytes m
  have hassoc : write_message m ++ extra
      = (clPre (utf8Encode (printJson (messageToJson m))).length).map Char.toNat
        ++ 10 :: (13 :: 10 :: (utf8Encode (printJson (messageToJson m)) ++ extra)) := by
    rw [hw]
    simp
  rw [hassoc]
  unfold read_message
  have hfuel : ((clPre (utf8Encode (printJson (messageToJson m))).length).map Char.toNat
        ++ 10 :: (13 :: 10 :: (utf8Encode (printJson (messageToJson m)) ++ extra))).length + 1
      = ((clPre (utf8Encode (printJson (messageToJson m))).length).length
          + (utf8Encode (printJson (messageToJson m))).length + extra.length + 2) + 2 := by
    simp
    omega
  rw [hfuel, read_headers_frame]
  have hnlt : ¬ (utf8Encode (printJson (messageToJson m)) ++ extra).length
      < (utf8Encode (printJson (messageToJson m))).length := by
    simp
  simp only
  rw [if_neg hnlt]
  rw [List.take_left, List.drop_left, utf8Decode_encode]
  simp only
  rw [parseJson_printJson]
  simp only
  rw [messageFromJson_toJson m h]

/-- A frame whose header section ends (blank line) without any
`Content-Length` header is rejected. -/
theorem read_message_missing_length (rest : List Nat) :
    read_message (13 :: 10 :: rest) = .error "Missing Content-Length header" := by
  have hh : read_headers ((13 :: 10 :: rest).length + 1) (13 :: 10 :: rest) none
      = .error "Missing Content-Length header" := by
    show read_headers ((rest.length + 2) + 1) (13 :: 10 :: rest) none = _
    rw [read_headers]
    have hsplit : splitLine (13 :: 10 :: rest) = ([13, 10], rest) := by
      simp [splitLine]
    rw [hsplit]
    simp only
    have hdec : utf8Decode [13, 10] = some ['\r', '\n'] := rfl
    rw [hdec]
    simp
  unfold read_message
  rw [hh]

/-- A frame whose body is not valid UTF-8 is rejected by `read_message`. -/
theorem read_message_invalid_utf8 (body extra : List Nat)
    (hbad : utf8Decode body = none) :
    read_message (utf8Encode (content_length_marker ++ natToChars body.length
        ++ "\r\n\r\n".data) ++ (body ++ extra))
      = .error "Invalid UTF-8" := by
  rw [frame_header_bytes]
  have hassoc : (clPre body.length).map Char.toNat ++ 10 :: (13 :: 10 :: []) ++ (body ++ extra)
      = (clPre body.length).map Char.toNat ++ 10 :: (13 :: 10 :: (body ++ extra)) := by
    simp
  rw [hassoc]
  unfold read_message
  have hfuel : ((clPre body.length).map Char.toNat
        ++ 10 :: (13 :: 10 :: (body ++ extra))).length + 1
      = ((clPre body.length).length + body.length + extra.length + 2) + 2 := by
    simp
    omega
  rw [hfuel, read_headers_frame]
  have hnlt : ¬ (body ++ extra).length < body.length := by
    simp
  simp only
  rw [if_neg hnlt, List.take_left, hbad]

/-! ## The session task (`LspTask` of `src/lsp_async.rs`)

State and command handlers.  I/O the task performs but does not compute —
whether a write to the child's stdin succeeded, and the reply an awaited
request eventually receives — is passed to each handler as an oracle
argument (`write_err` / `ReqOutcome`). -/

/-- `lsp_types::Url`, abstracted to its textual form and the result of
`Url::to_file_path()` (`none` for URLs that are not file paths). -/
structure Url where
  raw : String
  file_path : Option String
deriving DecidableEq

/-- `v as i32`: two's-complement truncation of an `i64` to 32 bits, applied
by the source to the version it puts in didOpen/didChange parameters. -/
def toInt32 (v : Int) : Int := (v + 2 ^ 31) % 2 ^ 32 - 2 ^ 31

theorem toInt32_small {v : Int} (h0 : 0 ≤ v) (h1 : v < 2 ^ 31) : toInt32 v = v := by
  unfold toInt32
  omega

/-- `lsp_types::Position` (only carried through, never computed with). -/
structure Position where
  line : Nat
  character : Nat
deriving DecidableEq

/-- `lsp_types::Range` (fields `start` / `end` of the source). -/
structure Range where
  startPos : Position
  endPos : Position
deriving DecidableEq

/-- `lsp_types::TextDocumentContentChangeEvent`. -/
structure TextDocumentContentChangeEvent where
  range : Option Range
  rangeLength : Option Nat
  text : String
deriving DecidableEq

/-- `lsp_types::TextDocumentItem` (the didOpen parameters' document). -/
structure TextDocumentItem where
  uri : Url
  language_id : String
  version : Int
  text : String
deriving DecidableEq

/-- `lsp_types::VersionedTextDocumentIdentifier` (didChange's document). -/
structure VersionedTextDocumentIdentifier where
  uri : Url
  version : Int
deriving DecidableEq

/-- `lsp_types::InitializeResult`, keeping the capabilities as the JSON the
server sent (`server_info` and the capability details are never read by the
client core). -/
structure InitializeResult where
  capabilities : Json

/-- `serde_json::from_value::<InitializeResult>`: requires a `capabilities`
field. -/
def initializeResultFromJson (v : Json) : Option InitializeResult :=
  match asObj v with
  | some fs =>
    match getField fs "capabilities" with
    | some c => some { capabilities := c }
    | none => none
  | none => none

/-- A frame the task writes to the child's stdin, in structured form.  The
constructors map one-to-one onto the `write_message` calls of the source:
`reqInit` is the `initialize` request, `reqShutdown` the `shutdown` request,
and the notifications are `textDocument/didOpen`, `textDocument/didChange`,
`initialized` and `exit`. -/
inductive OutMsg where
  | reqInit (id : Int) (root_uri : Option Url)
  | reqShutdown (id : Int)
  | notifDidOpen (text_document : TextDocumentItem)
  | notifDidChange (text_document : VersionedTextDocumentIdentifier)
      (content_changes : List TextDocumentContentChangeEvent)
  | notifInitialized
  | notifExit
deriving DecidableEq

/-- `async_bridge::AsyncMessage`.  `Diagnostic` values are carried as the
JSON they were parsed from. -/
inductive AsyncMessage where
  | lspDiagnostics (uri : String) (diagnostics : List Json)
  | lspInitialized (language : String)
  | lspError (language : String) (error : String)
  | fileChanged (path : String)
  | gitStatusChanged (status : String)

/-- The `LspTask` struct: request-id counter, pending-request ledger (the
oneshot senders are opaque, so the ledger maps ids to `Unit`), capabilities,
per-document version table, `initialized` flag and language id — plus two
instrumentation fields recording the observable I/O: `sent`, the frames
written to stdin, and `bridge`, the messages pushed through `async_tx`. -/
structure LspTask where
  next_id : Int
  pending : List (Int × Unit)
  capabilities : Option Json
  document_versions : List (String × Int)
  initialized : Bool
  language : String
  sent : List OutMsg
  bridge : List AsyncMessage
  process_killed : Bool

/-- The outcome of one awaited `send_request`: the write to stdin failed, the
oneshot reply channel closed, or a reply was delivered (the server's result
or its error, already formatted by `handle_message`). -/
inductive ReqOutcome where
  | writeErr (e : String)
  | chanClosed
  | reply (r : Except String Json)

/-- `LspTask::send_request` under the outcome oracle: allocate the next id,
register the oneshot slot, write the frame, await.  On a failed write the
slot leaks in the ledger and nothing was sent, as in the source; on a
delivered reply the slot has been consumed by `handle_message`. -/
def send_request (s : LspTask) (mk : Int → OutMsg) (out : ReqOutcome) :
    LspTask × Except String Json :=
  let id := s.next_id
  let s1 := { s with next_id := s.next_id + 1, pending := insertA s.pending id () }
  match out with
  | .writeErr e => (s1, .error e)
  | .chanClosed =>
    ({ s1 with sent := s1.sent ++ [mk id] }, .error "Response channel closed")
  | .reply r =>
    ({ s1 with sent := s1.sent ++ [mk id], pending := eraseA s1.pending id }, r)

/-- `LspTask::handle_initialize`: send the `initialize` request, store the
capabilities, send the `initialized` notification, set the flag, push the
`LspInitialized` bridge message, and return the result — in that order, each
step short-circuiting on failure. -/
def handle_initialize (s : LspTask) (root_uri : Option Url) (out : ReqOutcome)
    (notif_write_err : Option String) : LspTask × Except String InitializeResult :=
  match send_request s (fun id => .reqInit id root_uri) out with
  | (s1, res) =>
    match res with
    | .error e => (s1, .error e)
    | .ok v =>
      match initializeResultFromJson v with
      | none => (s1, .error "Failed to deserialize response")
      | some result =>
        let s2 := { s1 with capabilities := some result.capabilities }
        match notif_write_err with
        | some e => (s2, .error e)
        | none =>
          let s3 := { s2 with sent := s2.sent ++ [OutMsg.notifInitialized] }
          let s4 := { s3 with initialized := true }
          ({ s4 with bridge := s4.bridge ++ [AsyncMessage.lspInitialized s4.language] }, .ok result)

/-- `LspTask::handle_did_open`: requires the `initialized` flag; resets the
path's version-table entry to 1 (when the URI is a file path), then sends
`textDocument/didOpen` carrying version 1. -/
def handle_did_open (s : LspTask) (uri : Url) (text : String) (language_id : String)
    (write_err : Option String) : LspTask × Except String Unit :=
  if s.initialized = false then
    (s, .error "LSP client not initialized")
  else
    let s1 :=
      match uri.file_path with
      | some p => { s with document_versions := insertA s.document_versions p 1 }
      | none => s
    let item : TextDocumentItem :=
      { uri := uri, language_id := language_id, version := toInt32 1, text := text }
    match write_err with
    | some e => (s1, .error e)
    | none => ({ s1 with sent := s1.sent ++ [.notifDidOpen item] }, .ok ())

/-- `LspTask::handle_did_change`: requires the `initialized` flag; bumps the
version via `document_versions.entry(path).or_insert(0); *v += 1` — so a
path with no entry gets one, at version 1 — and sends
`textDocument/didChange` carrying the bumped version (URIs that are not file
paths send version 1 and leave the table alone). -/
def handle_did_change (s : LspTask) (uri : Url)
    (content_changes : List TextDocumentContentChangeEvent)
    (write_err : Option String) : LspTask × Except String Unit :=
  if s.initialized = false then
    (s, .error "LSP client not initialized")
  else
    let step :=
      match uri.file_path with
      | some p =>
        let v := (lookupA s.document_versions p).getD 0 + 1
        ({ s with document_versions := insertA s.document_versions p v }, v)
      | none => (s, 1)
    match write_err with
    | some e => (step.1, .error e)
    | none =>
      ({ step.1 with sent := step.1.sent
          ++ [.notifDidChange { uri := uri, version := toInt32 step.2 } content_changes] },
        .ok ())

/-- `LspTask::handle_shutdown`: a no-op returning `Ok(())` when the session
was never initialized; otherwise send the `shutdown` request, await it, send
the `exit` notification, and kill the process. -/
def handle_shutdown (s : LspTask) (out : ReqOutcome) (exit_write_err : Option String) :
    LspTask × Except String Unit :=
  if s.initialized = false then
    (s, .ok ())
  else
    match send_request s (fun id => .reqShutdown id) out with
    | (s1, res) =>
      match res with
      | .error e => (s1, .error e)
      | .ok _ =>
        match exit_write_err with
        | some e => (s1, .error e)
        | none =>
          let s2 := { s1 with sent := s1.sent ++ [OutMsg.notifExit] }
          ({ s2 with process_killed := true }, .ok ())

/-- The value `handle_message` sends into a resolved oneshot slot: the
formatted server error, the result, or a missing-result error. -/
def resolve_value (r : JsonRpcResponse) : Except String Json :=
  match r.error with
  | some err =>
    .error ("LSP error: " ++ err.message ++ " (code " ++ toString err.code ++ ")")
  | none =>
    match r.result with
    | some v => .ok v
    | none => .error "No result in response"

/-- `PublishDiagnosticsParams` deserialization: a `uri` string and a
`diagnostics` array. -/
def publishDiagnosticsFromJson (j : Json) : Option (String × List Json) := do
  let fs ← asObj j
  let u ← getField fs "uri" >>= asStr
  let ds ← getField fs "diagnostics" >>= asArr
  some (u, ds)

/-- `LspTask::handle_notification`: `textDocument/publishDiagnostics` becomes
a `LspDiagnostics` bridge message; `window/showMessage`, `window/logMessage`
and unrecognised methods are only logged, leaving the state unchanged. -/
def handle_notification (s : LspTask) (n : JsonRpcNotification) :
    LspTask × Except String Unit :=
  if n.method = "textDocument/publishDiagnostics" then
    match n.params with
    | some params =>
      match publishDiagnosticsFromJson params with
      | some pd =>
        ({ s with bridge := s.bridge ++ [.lspDiagnostics pd.1 pd.2] }, .ok ())
      | none => (s, .error "Failed to deserialize diagnostics")
    | none => (s, .ok ())
  else (s, .ok ())

/-- `LspTask::handle_message`.  A `Response` removes the matching ledger slot
(if any) and fulfills it with `resolve_value` — the middle component lists
the `(id, value)` pairs sent into slots; an unmatched response changes
nothing.  Notifications dispatch to `handle_notification`; requests from the
server are logged and ignored. -/
def handle_message (s : LspTask) (m : JsonRpcMessage) :
    LspTask × List (Int × Except String Json) × Except String Unit :=
  match m with
  | .response r =>
    match lookupA s.pending r.id with
    | some _ =>
      ({ s with pending := eraseA s.pending r.id }, [(r.id, resolve_value r)], .ok ())
    | none => (s, [], .ok ())
  | .notification n =>
    match handle_notification s n with
    | (s1, res) => (s1, [], res)
  | .request _ => (s, [], .ok ())

/-- `LspCommand`, with each command carrying the oracles for the I/O its
handler performs.  Constructors map to `Initialize`, `DidOpen`, `DidChange`
and `Shutdown`; `slot` identifies the oneshot reply channel the Initialize
command carries. -/
inductive LspCommand where
  | initializeCmd (root_uri : Option Url) (slot : Nat) (out : ReqOutcome)
      (notif_write_err : Option String)
  | didOpen (uri : Url) (text : String) (language_id : String)
      (write_err : Option String)
  | didChange (uri : Url) (content_changes : List TextDocumentContentChangeEvent)
      (write_err : Option String)
  | shutdown (out : ReqOutcome) (exit_write_err : Option String)

/-- One arm of the `tokio::select!` in `LspTask::run`: either a command from
the queue or the result of `read_message` on the child's stdout. -/
inductive RunEvent where
  | command (c : LspCommand)
  | readResult (r : Except String JsonRpcMessage)

/-- The observable outcome of running the event loop over a list of events:
the final task state, the replies sent into Initialize oneshot slots, the
ledger slots fulfilled by inbound responses, the events left unprocessed
because the loop broke, and whether it broke (after which the command queue
is closed). -/
structure RunOut where
  task : LspTask
  replies : List (Nat × Except String InitializeResult)
  fulfilled : List (Int × Except String Json)
  leftover : List RunEvent
  exited : Bool

/-- `LspTask::run`: process events in order; break on a `Shutdown` command,
or on a read error after pushing exactly one `LspError` bridge message. -/
def run : LspTask → List RunEvent → RunOut
  | s, [] => ⟨s, [], [], [], false⟩
  | s, ev :: rest =>
    match ev with
    | .command (.initializeCmd root_uri slot out ne) =>
      match handle_initialize s root_uri out ne with
      | (s1, res) =>
        let o := run s1 rest
        { o with replies := (slot, res) :: o.replies }
    | .command (.didOpen uri text lid we) =>
      run (handle_did_open s uri text lid we).1 rest
    | .command (.didChange uri cc we) =>
      run (handle_did_change s uri cc we).1 rest
    | .command (.shutdown out ee) =>
      ⟨(handle_shutdown s out ee).1, [], [], rest, true⟩
    | .readResult (.ok m) =>
      match handle_message s m with
      | (s1, ful, _) =>
        let o := run s1 rest
        { o with fulfilled := ful ++ o.fulfilled }
    | .readResult (.error e) =>
      ⟨{ s with bridge := s.bridge
          ++ [.lspError s.language ("Read error: " ++ e)] }, [], [], rest, true⟩

/-- The `LspHandle` façade as the editor thread sees it: its `initialized`
mutex flag, and whether the task side of the command queue is gone (the task
exited), making `blocking_send` fail. -/
structure LspHandle where
  initialized : Bool
  command_closed : Bool

/-- `LspHandle::did_open`: fails fast when not initialized or when the
command queue is closed; otherwise the command is enqueued. -/
def LspHandle.did_open (h : LspHandle) : Except String Unit :=
  if h.initialized = false then .error "LSP client not initialized"
  else if h.command_closed then .error "Failed to send did_open command"
  else .ok ()

/-- `LspHandle::did_change`, same failure modes as `did_open`. -/
def LspHandle.did_change (h : LspHandle) : Except String Unit :=
  if h.initialized = false then .error "LSP client not initialized"
  else if h.command_closed then .error "Failed to send did_change command"
  else .ok ()

/-! ## The manager (`LspManager` of `src/lsp_manager.rs`) -/

/-- Modelled from the spec: the per-language configuration record
(`crate::lsp::LspServerConfig`) is declared in a module that is not among the
provided sources; §6 of the spec gives its fields
`{command, args, enabled, auto_start, resource_limits}`.  `get_or_spawn`
reads only `command`, `args` and `enabled`. -/
structure LspServerConfig where
  command : String
  args : List String
  enabled : Bool
  auto_start : Bool

/-- A handle registered in the manager, tagged with which spawned process it
fronts (`hid` — handle identity; a fresh spawn gets a fresh identity). -/
structure ManagerHandle where
  hid : Nat
  language : String
deriving DecidableEq

/-- The `LspManager` struct.  `spawn_count` instruments how many times
`LspHandle::spawn` ran — each run spawns one child process. -/
structure LspManager where
  handles : List (String × ManagerHandle)
  config : List (String × LspServerConfig)
  root_uri : Option Url
  runtime_set : Bool
  bridge_set : Bool
  spawn_count : Nat

/-- `LspManager::get_or_spawn`.  Returns the registered handle if one
exists; otherwise requires a configuration entry that is `enabled` (plus the
runtime and bridge), spawns a handle (`LspHandle::spawn` in the source
always returns `Ok`), and blocks on `initialize` — whose success is the
`init_ok` oracle.  On success the handle is registered and returned; on
failure it is dropped (killing the process) and `None` is returned. -/
def get_or_spawn (m : LspManager) (language : String) (init_ok : Bool) :
    LspManager × Option ManagerHandle :=
  match lookupA m.handles language with
  | some h => (m, some h)
  | none =>
    match lookupA m.config language with
    | none => (m, none)
    | some cfg =>
      if cfg.enabled = false then (m, none)
      else if m.runtime_set = false then (m, none)
      else if m.bridge_set = false then (m, none)
      else
        let h : ManagerHandle := { hid := m.spawn_count, language := language }
        let m1 := { m with spawn_count := m.spawn_count + 1 }
        if init_ok then
          ({ m1 with handles := insertA m1.handles language h }, some h)
        else (m1, none)

/-! ## The editor-side lifecycle glue
(`Editor::disable_lsp_for_buffer` of `crates/fresh-editor/src/app/lsp_actions.rs`)

The buffer metadata, manager and handle types of the `fresh-editor` crate are
not among the provided sources (only this caller is); the pieces this
function touches are modelled from the spec (§4.5–§4.6) and from how the
caller uses them, each marked below.  `disable_lsp_for_buffer` itself is
translated statement by statement; the `events` trace records its three
observable steps in execution order. -/

/-- Modelled from the spec: buffer metadata as `disable_lsp_for_buffer` uses
it — the buffer's file URI, the LSP-enabled flag with its disable reason
(`disable_lsp` sets them), and `lsp_opened_with`, the handle identities the
buffer was opened against (cleared on disable). -/
structure BufferMetadata where
  file_uri : Option Url
  lsp_enabled : Bool
  lsp_disabled_reason : Option String
  lsp_opened_with : List Nat

/-- `metadata.disable_lsp(reason)`: mark LSP disabled with the reason. -/
def BufferMetadata.disable_lsp (m : BufferMetadata) (reason : String) : BufferMetadata :=
  { m with lsp_enabled := false, lsp_disabled_reason := some reason }

/-- The per-buffer editor state the function touches: the buffer's language,
its inlay-hint overlays (`virtual_texts`) and cached LSP folding ranges.
Overlay payloads are opaque. -/
structure EditorBufferState where
  language : String
  virtual_texts : List Nat
  folding_ranges : List Nat

/-- A per-buffer, per-split view state holding interactive folds. -/
structure ViewBufState where
  folds : List Nat

/-- A split view's keyed per-buffer states. -/
structure SplitViewState where
  keyed_states : List (Nat × ViewBufState)

/-- A pending folding-range request, keyed elsewhere by request id. -/
structure PendingFoldReq where
  buffer_id : Nat

/-- The observable steps of `disable_lsp_for_buffer`, in execution order:
`handle.did_close(uri)` (modelled from the spec: the fresh-editor handle's
`did_close` enqueues one DidClose command for the URI), marking the
metadata disabled, and clearing the URI-keyed caches. -/
inductive DisableEvent where
  | sentDidClose (uri : Url)
  | markedDisabled (buffer_id : Nat)
  | clearedCaches (uri : String)
deriving DecidableEq

/-- The slice of `Editor` state `disable_lsp_for_buffer` reads and writes.
`lsp` is the manager's language-to-handle registry (`get_handle_mut` is a
lookup); `events` is the instrumentation trace. -/
structure Editor where
  buffer_metadata : List (Nat × BufferMetadata)
  buffers : List (Nat × EditorBufferState)
  lsp : Option (List (String × ManagerHandle))
  stored_diagnostics : List (String × List Json)
  diagnostic_result_ids : List (String × String)
  stored_folding_ranges : List (String × List Json)
  folding_ranges_in_flight : List Nat
  folding_ranges_debounce : List (Nat × Nat)
  pending_folding_range_requests : List (Nat × PendingFoldReq)
  split_view_states : List (Nat × SplitViewState)
  status_message : Option String
  events : List DisableEvent

/-- `Editor::disable_lsp_for_buffer`, statement by statement: (1) if the
buffer has a URI, a manager exists and it has a handle for the buffer's
language, call `did_close(uri)` on it (failures are only logged); (2) mark
the metadata LSP-disabled and clear `lsp_opened_with`; set the status
message; (3) re-read the URI and remove the stored diagnostics, diagnostic
result-ids and folding ranges for it; (4) drop folding bookkeeping for the
buffer and clear its overlays and per-split folds. -/
def disable_lsp_for_buffer (ed : Editor) (buffer_id : Nat) : Editor :=
  let ed1 :=
    match (lookupA ed.buffer_metadata buffer_id).bind (fun m => m.file_uri) with
    | some uri =>
      let language := ((lookupA ed.buffers buffer_id).map
        (fun bs : EditorBufferState => bs.language)).getD ""
      match ed.lsp with
      | some mgr =>
        match lookupA mgr language with
        | some _ => { ed with events := ed.events ++ [DisableEvent.sentDidClose uri] }
        | none => ed
      | none => ed
    | none => ed
  let ed2 :=
    match lookupA ed1.buffer_metadata buffer_id with
    | some md =>
      { ed1 with
        buffer_metadata := insertA ed1.buffer_metadata buffer_id
          { md.disable_lsp "lsp.disabled.user" with lsp_opened_with := [] },
        events := ed1.events ++ [DisableEvent.markedDisabled buffer_id] }
    | none => ed1
  let ed3 := { ed2 with status_message := some "lsp.disabled_for_buffer" }
  let ed4 :=
    match ((lookupA ed3.buffer_metadata buffer_id).bind
        (fun m => m.file_uri)).map (fun u => u.raw) with
    | some us =>
      { ed3 with
        stored_diagnostics := eraseA ed3.stored_diagnostics us,
        diagnostic_result_ids := eraseA ed3.diagnostic_result_ids us,
        stored_folding_ranges := eraseA ed3.stored_folding_ranges us,
        events := ed3.events ++ [DisableEvent.clearedCaches us] }
    | none => ed3
  let ed5 :=
    { ed4 with
      folding_ranges_in_flight := ed4.folding_ranges_in_flight.erase buffer_id,
      folding_ranges_debounce := eraseA ed4.folding_ranges_debounce buffer_id,
      pending_folding_range_requests := ed4.pending_folding_range_requests.filter
        (fun kv => kv.2.buffer_id ≠ buffer_id) }
  match lookupA ed5.buffers buffer_id with
  | some bs =>
    { ed5 with
      buffers := insertA ed5.buffers buffer_id
        { bs with virtual_texts := [], folding_ranges := [] },
      split_view_states := ed5.split_view_states.map (fun kv =>
        (kv.1,
          { keyed_states :=
              match lookupA kv.2.keyed_states buffer_id with
              | some vbs => insertA kv.2.keyed_states buffer_id { vbs with folds := [] }
              | none => kv.2.keyed_states })) }
  | none => ed5

/-! ## The bridge (`AsyncBridge` of `src/async_bridge.rs`)

The channel is its queue of undelivered messages, oldest first; `send`
appends, `try_recv` pops the front. -/

/-- `mpsc::Receiver::try_recv`: pop the oldest message, without blocking. -/
def try_recv (q : List AsyncMessage) : Option (AsyncMessage × List AsyncMessage) :=
  match q with
  | [] => none
  | m :: r => some (m, r)

/-- `mpsc::Sender::send`: append a message to the queue. -/
def send (q : List AsyncMessage) (m : AsyncMessage) : List AsyncMessage :=
  q ++ [m]

/-- `AsyncBridge::try_recv_all`: drain the queue by looping `try_recv` until
it fails, collecting the messages in arrival order.  Returns the collected
messages and the queue left behind.  (The loop recursion is phrased on the
queue's list structure, which `try_recv` pops one cell at a time.) -/
def try_recv_all : List AsyncMessage → List AsyncMessage × List AsyncMessage
  | [] => ([], [])
  | m :: r =>
    match try_recv_all r with
    | (ms, q1) => (m :: ms, q1)

/-- `try_recv_all` is exactly the `while let Ok(msg) = receiver.try_recv()`
loop of the source: one `try_recv` step, then the loop on the rest. -/
theorem try_recv_all_loop (q : List AsyncMessage) :
    try_recv_all q
      = match try_recv q with
        | none => ([], q)
        | some (m, r) =>
          match try_recv_all r with
          | (ms, q1) => (m :: ms, q1) := by
  cases q <;> rfl

/-! ## Shared concrete examples (used by witnesses and counterexamples) -/

/-- A freshly initialized session task for the `rust` language. -/
def exampleTask : LspTask :=
  { next_id := 0, pending := [], capabilities := none, document_versions := [],
    initialized := true, language := "rust", sent := [], bridge := [],
    process_killed := false }

/-- The same task before initialization. -/
def notInitTask : LspTask := { exampleTask with initialized := false }

/-- A file URL. -/
def uriEx : Url := { raw := "file:///a.rs", file_path := some "/a.rs" }

/-! ## Helper lemmas for the brige and task claims -/

theorem foldl_send (ms : List AsyncMessage) :
    ∀ q : List AsyncMessage, List.foldl send q ms = q ++ ms := by
  induction ms with
  | nil => intro q; simp
  | cons m t ih =>
    intro q
    rw [List.foldl_cons, ih]
    simp [send]

theorem try_recv_all_drains (q : List AsyncMessage) : try_recv_all q = (q, []) := by
  induction q with
  | nil => rfl
  | cons m r ih => rw [try_recv_all, ih]

/-! ## The claims -/

/-- C10.  Bridge drain: `try_recv_all` never blocks (it is a total function
of the queue), returns all messages sent so far in their send order, and
leaves the queue empty, so a second `try_recv_all` with no intervening sends
returns the empty list. -/
theorem claim_bridge_drain (ms : List AsyncMessage) :
    try_recv_all (List.foldl send [] ms) = (ms, [])
      ∧ try_recv_all (try_recv_all (List.foldl send [] ms)).2 = ([], []) := by
  rw [foldl_send ms [], List.nil_append, try_recv_all_drains]
  exact ⟨rfl, rfl⟩

/-- C6.  Handling an inbound `Response` fulfills at most one ledger slot and
always succeeds: the slot at the response's id (if any) is removed, every
other id's slot is untouched, and a response matching no slot leaves the
task exactly as it was, fulfilling nothing — no panic is possible, the
handler is total and returns `Ok`. -/
theorem claim_response_resolves_at_most_one (s : LspTask) (r : JsonRpcResponse) :
    (handle_message s (.response r)).2.1.length ≤ 1
    ∧ (handle_message s (.response r)).2.2 = .ok ()
    ∧ lookupA (handle_message s (.response r)).1.pending r.id = none
    ∧ (∀ k, ¬ k = r.id →
        lookupA (handle_message s (.response r)).1.pending k = lookupA s.pending k)
    ∧ (lookupA s.pending r.id = none →
        handle_message s (.response r) = (s, [], .ok ())) := by
  cases hp : lookupA s.pending r.id with
  | some u =>
    have hm : handle_message s (.response r)
        = ({ s with pending := eraseA s.pending r.id },
            [(r.id, resolve_value r)], .ok ()) := by
      simp only [handle_message, hp]
    rw [hm]
    refine ⟨by simp, rfl, by simp, ?_, ?_⟩
    · intro k hk
      exact lookupA_eraseA_ne s.pending r.id k hk
    · intro hno
      simp at hno
  | none =>
    have hm : handle_message s (.response r) = (s, [], .ok ()) := by
      simp only [handle_message, hp]
    rw [hm]
    exact ⟨by simp, rfl, by simpa using hp, fun k _ => rfl, fun _ => rfl⟩

/-- Witness for C6: a concrete response (id 2) against a ledger holding only
id 1 resolves nothing and leaves the task untouched. -/
theorem claim_response_resolves_at_most_one_witness :
    lookupA ({ exampleTask with pending := [(1, ())] } : LspTask).pending (2 : Int) = none
    ∧ handle_message { exampleTask with pending := [(1, ())] }
        (.response { jsonrpc := "2.0", id := 2, result := some .null, error := none })
      = ({ exampleTask with pending := [(1, ())] }, [], .ok ()) := by
  constructor
  · rfl
  · exact (claim_response_resolves_at_most_one
      { exampleTask with pending := [(1, ())] }
      { jsonrpc := "2.0", id := 2, result := some .null, error := none }).2.2.2.2 rfl

/-- C8.  The manager spawns only under configuration: a `get_or_spawn` call
that increases the process count found an enabled configuration entry for
the language; and when a handle is already registered, two consecutive
calls both return that same handle and leave the manager (in particular its
spawn count) unchanged — exactly one process ever spawned for it in total. -/
theorem claim_manager_spawn_policy :
    (∀ (m : LspManager) (language : String) (init_ok : Bool),
        ¬ (get_or_spawn m language init_ok).1.spawn_count = m.spawn_count →
        ∃ cfg, lookupA m.config language = some cfg ∧ cfg.enabled = true)
    ∧ (∀ (m : LspManager) (language : String) (h : ManagerHandle) (ok1 ok2 : Bool),
        lookupA m.handles language = some h →
        get_or_spawn m language ok1 = (m, some h)
        ∧ get_or_spawn (get_or_spawn m language ok1).1 language ok2 = (m, some h)
        ∧ (get_or_spawn (get_or_spawn m language ok1).1 language ok2).1.spawn_count
            = m.spawn_count) := by
  constructor
  · intro m language init_ok hch
    unfold get_or_spawn at hch
    cases hh : lookupA m.handles language with
    | some h => simp only [hh] at hch; simp at hch
    | none =>
      simp only [hh] at hch
      cases hc : lookupA m.config language with
      | none => simp only [hc] at hch; simp at hch
      | some cfg =>
        simp only [hc] at hch
        refine ⟨cfg, rfl, ?_⟩
        by_cases he : cfg.enabled = false
        · simp only [if_pos he] at hch
          simp at hch
        · simpa using he
  · intro m language h ok1 ok2 hh
    have h1 : get_or_spawn m language ok1 = (m, some h) := by
      unfold get_or_spawn
      rw [hh]
    have h2 : get_or_spawn m language ok2 = (m, some h) := by
      unfold get_or_spawn
      rw [hh]
    refine ⟨h1, ?_, ?_⟩ <;> rw [h1] <;> simp [h2]

/-- A manager with a running `rust` session registered (one process spawned
so far), plus an enabled configuration entry. -/
def mgrEx : LspManager where
  handles := [("rust", { hid := 0, language := "rust" })]
  config := [("rust",
    { command := "rust-analyzer", args := [], enabled := true, auto_start := true })]
  root_uri := none
  runtime_set := true
  bridge_set := true
  spawn_count := 1

/-- Witness for C8: on `mgrEx`, two consecutive `get_or_spawn` calls for
`rust` both return the registered handle and the spawn count stays 1. -/
theorem claim_manager_spawn_policy_witness :
    get_or_spawn mgrEx "rust" true = (mgrEx, some { hid := 0, language := "rust" })
    ∧ get_or_spawn (get_or_spawn mgrEx "rust" true).1 "rust" true
        = (mgrEx, some { hid := 0, language := "rust" })
    ∧ (get_or_spawn (get_or_spawn mgrEx "rust" true).1 "rust" true).1.spawn_count
        = mgrEx.spawn_count := by
  have h := claim_manager_spawn_policy.2 mgrEx "rust"
    { hid := 0, language := "rust" } true true (by rfl)
  exact ⟨h.1, h.2.1, h.2.2⟩

/-- C4, counterexample.  The claim says every command other than Initialize
fails with a not-initialized error on an uninitialized session; but
`handle_shutdown` on an uninitialized session returns `Ok(())` — a silent
no-op, not an error (the source's early `if !self.initialized { return
Ok(()); }`). -/
theorem claim_not_initialized_shutdown_cex :
    handle_shutdown notInitTask (.reply (.ok .null)) none = (notInitTask, .ok ()) := rfl

/-- C4, amended.  On a session whose `initialized` flag is false, `DidOpen`
and `DidChange` fail with the not-initialized error without performing the
operation; `Shutdown` also performs nothing, but returns `Ok(())` rather
than an error. -/
theorem claim_not_initialized_handlers (s : LspTask) (h : s.initialized = false) :
    (∀ uri text lid we,
        handle_did_open s uri text lid we = (s, .error "LSP client not initialized"))
    ∧ (∀ uri cc we,
        handle_did_change s uri cc we = (s, .error "LSP client not initialized"))
    ∧ (∀ out ee, handle_shutdown s out ee = (s, .ok ())) := by
  refine ⟨?_, ?_, ?_⟩
  · intro uri text lid we
    unfold handle_did_open
    rw [if_pos h]
  · intro uri cc we
    unfold handle_did_change
    rw [if_pos h]
  · intro out ee
    unfold handle_shutdown
    rw [if_pos h]

/-- Witness for C4 (amended): the uninitialized example task rejects
`DidOpen` and `DidChange` and silently accepts `Shutdown`. -/
theorem claim_not_initialized_handlers_witness :
    notInitTask.initialized = false
    ∧ handle_did_open notInitTask uriEx "fn main() {}" "rust" none
        = (notInitTask, .error "LSP client not initialized")
    ∧ handle_did_change notInitTask uriEx [] none
        = (notInitTask, .error "LSP client not initialized")
    ∧ handle_shutdown notInitTask .chanClosed none = (notInitTask, .ok ()) := by
  have h := claim_not_initialized_handlers notInitTask rfl
  exact ⟨rfl, h.1 uriEx "fn main() {}" "rust" none, h.2.1 uriEx [] none,
    h.2.2 .chanClosed none⟩

/-- C3, counterexample.  The claim says a `DidChange` for a path with no
version-table entry is logged and *not sent*, with no version fabricated;
but the source's `entry(path).or_insert(0); *v += 1` fabricates version 1,
registers the entry, and sends the didChange notification carrying
version 1 — on the example task (empty table) the notification is sent and
the entry appears at 1. -/
theorem claim_didchange_no_entry_cex :
    lookupA exampleTask.document_versions "/a.rs" = none
    ∧ handle_did_change exampleTask uriEx [] none
      = ({ exampleTask with
            document_versions := [("/a.rs", 1)],
            sent := [.notifDidChange { uri := uriEx, version := 1 } []] }, .ok ()) :=
  ⟨rfl, rfl⟩

/-- C3, amended.  A `DidChange` for a file path with no version-table entry
falls back instead of being dropped: the session registers the entry at
version 1 (`or_insert(0)` then `+= 1`) and sends a didChange notification
carrying version 1. -/
theorem claim_didchange_fallback (s : LspTask) (uri : Url) (p : String)
    (cc : List TextDocumentContentChangeEvent)
    (hinit : s.initialized = true) (hp : uri.file_path = some p)
    (hnone : lookupA s.document_versions p = none) :
    handle_did_change s uri cc none
      = ({ s with
            document_versions := insertA s.document_versions p 1,
            sent := s.sent ++ [.notifDidChange { uri := uri, version := 1 } cc] },
          .ok ()) := by
  have h32 : toInt32 1 = 1 := rfl
  unfold handle_did_change
  rw [if_neg (by rw [hinit]; simp), hp]
  simp only [hnone, Option.getD_none, h32, zero_add]

/-- Witness for C3 (amended): the fallback on the example task. -/
theorem claim_didchange_fallback_witness :
    exampleTask.initialized = true
    ∧ uriEx.file_path = some "/a.rs"
    ∧ lookupA exampleTask.document_versions "/a.rs" = none
    ∧ handle_did_change exampleTask uriEx [] none
      = ({ exampleTask with
            document_versions := insertA exampleTask.document_versions "/a.rs" 1,
            sent := exampleTask.sent
              ++ [.notifDidChange { uri := uriEx, version := 1 } []] }, .ok ()) :=
  ⟨rfl, rfl, rfl, claim_didchange_fallback exampleTask uriEx "/a.rs" [] rfl rfl rfl⟩

/-! ### C1: the document version protocol -/

/-- `n` DidChange commands for the same document, in sequence (each with a
successful write). -/
def iterate_did_change (uri : Url) (cc : List TextDocumentContentChangeEvent) :
    Nat → LspTask → LspTask
  | 0, s => s
  | n + 1, s => iterate_did_change uri cc n (handle_did_change s uri cc none).1

/-- One DidOpen followed by `n` DidChange commands for the same document. -/
def open_then_change (s : LspTask) (uri : Url) (text lid : String)
    (cc : List TextDocumentContentChangeEvent) (n : Nat) : LspTask :=
  iterate_did_change uri cc n (handle_did_open s uri text lid none).1

/-- The versions carried by the didOpen/didChange notifications for `uri`
among the sent frames, in send order. -/
def sent_versions (w : List OutMsg) (uri : Url) : List Int :=
  w.filterMap (fun msg =>
    match msg with
    | .notifDidOpen item => if item.uri = uri then some item.version else none
    | .notifDidChange vid _ => if vid.uri = uri then some vid.version else none
    | _ => none)

theorem sent_versions_append (w1 w2 : List OutMsg) (uri : Url) :
    sent_versions (w1 ++ w2) uri = sent_versions w1 uri ++ sent_versions w2 uri := by
  simp [sent_versions]

/-- The effect of one in-table DidChange: bump the entry, send the bumped
version. -/
theorem handle_did_change_at (s : LspTask) (uri : Url) (p : String)
    (cc : List TextDocumentContentChangeEvent) (v : Int)
    (hinit : s.initialized = true) (hp : uri.file_path = some p)
    (hv : lookupA s.document_versions p = some v)
    (h0 : 0 ≤ v) (h1 : v + 1 < 2 ^ 31) :
    handle_did_change s uri cc none
      = ({ s with
            document_versions := insertA s.document_versions p (v + 1),
            sent := s.sent ++ [.notifDidChange { uri := uri, version := v + 1 } cc] },
          .ok ()) := by
  unfold handle_did_change
  rw [if_neg (by rw [hinit]; simp), hp]
  simp only [hv, Option.getD_some, toInt32_small (by omega) h1]

/-- Invariant of the DidChange iteration: starting from version `v` in the
table, `k` changes send versions `v+1, …, v+k` and leave the entry at
`v + k`. -/
theorem iterate_did_change_spec (uri : Url) (p : String)
    (cc : List TextDocumentContentChangeEvent) (hp : uri.file_path = some p) :
    ∀ (k : Nat) (s : LspTask) (v : Int), s.initialized = true →
      lookupA s.document_versions p = some v → 0 ≤ v → v + k < 2 ^ 31 →
      sent_versions (iterate_did_change uri cc k s).sent uri
        = sent_versions s.sent uri ++ (List.range k).map (fun i : Nat => v + i + 1)
      ∧ lookupA (iterate_did_change uri cc k s).document_versions p = some (v + k)
      ∧ (iterate_did_change uri cc k s).initialized = true := by
  intro k
  induction k with
  | zero =>
    intro s v hinit hv h0 hbound
    refine ⟨by simp [iterate_did_change], ?_, by simpa [iterate_did_change] using hinit⟩
    simpa [iterate_did_change] using hv
  | succ k ih =>
    intro s v hinit hv h0 hbound
    have hstep := handle_did_change_at s uri p cc v hinit hp hv h0
      (by push_cast at hbound ⊢; omega)
    have hs1 : (handle_did_change s uri cc none).1
        = { s with
            document_versions := insertA s.document_versions p (v + 1),
            sent := s.sent ++ [.notifDidChange { uri := uri, version := v + 1 } cc] } := by
      rw [hstep]
    have hih := ih (handle_did_change s uri cc none).1 (v + 1)
      (by rw [hs1]; exact hinit)
      (by rw [hs1]; exact lookupA_insertA_self _ _ _)
      (by omega)
      (by push_cast at hbound ⊢; omega)
    rw [iterate_did_change]
    refine ⟨?_, ?_, hih.2.2⟩
    · rw [hih.1, hs1]
      simp only [sent_versions_append]
      have hone : sent_versions [OutMsg.notifDidChange { uri := uri, version := v + 1 } cc]
          uri = [v + 1] := by
        simp [sent_versions]
      rw [hone, List.append_assoc]
      congr 1
      rw [List.range_succ_eq_map, List.map_cons, List.map_map, List.singleton_append]
      refine congrArg₂ List.cons (by push_cast; ring) ?_
      apply List.map_congr_left
      intro i _
      simp only [Function.comp_apply]
      push_cast
      ring
    · rw [hih.2.1]
      congr 1
      push_cast
      ring

/-- A task whose version-table entry for `/a.rs` has reached `2^31 - 1`. -/
def wrapTask : LspTask :=
  { exampleTask with document_versions := [("/a.rs", 2 ^ 31 - 1)] }

/-- C1, counterexample.  The claim says each DidChange increments the table
entry by exactly 1 *and sends that version* — universally, with no bound.
But the source puts `version as i32` on the wire: when the (i64) table entry
reaches `2^31 - 1`, the next DidChange stores `2^31` in the table while the
notification it sends carries the wrapped version `-2^31`, which is not the
incremented entry. -/
theorem claim_version_wrap_cex :
    lookupA (handle_did_change wrapTask uriEx [] none).1.document_versions "/a.rs"
      = some (2 ^ 31)
    ∧ (handle_did_change wrapTask uriEx [] none).1.sent
        = [.notifDidChange { uri := uriEx, version := -(2 ^ 31) } []]
    ∧ ¬ (-(2 ^ 31) : Int) = 2 ^ 31 := by
  refine ⟨?_, ?_, by decide⟩ <;> rfl

/-- C1, amended.  DidOpen sets the path's version-table entry to 1
(overwriting any pre-existing entry) and sends a didOpen notification
carrying version 1; each subsequent DidChange bumps the entry by exactly 1
and sends the bumped version, so one DidOpen followed by `N` DidChange
commands sends the version sequence `1, 2, …, N+1` for that document and
leaves the entry at `N + 1` — provided `N + 1 < 2^31`.  Beyond that bound
the claim fails: the `version as i32` truncation the source applies wraps
the wire version negative while the i64 table keeps counting (see the
counterexample above). -/
theorem claim_version_sequence (s : LspTask) (uri : Url) (p : String)
    (text lid : String) (cc : List TextDocumentContentChangeEvent) (N : Nat)
    (hinit : s.initialized = true) (hp : uri.file_path = some p)
    (hN : (N : Int) + 1 < 2 ^ 31) :
    lookupA (handle_did_open s uri text lid none).1.document_versions p = some 1
    ∧ (handle_did_open s uri text lid none).1.sent
        = s.sent ++ [.notifDidOpen
            { uri := uri, language_id := lid, version := 1, text := text }]
    ∧ sent_versions (open_then_change s uri text lid cc N).sent uri
        = sent_versions s.sent uri ++ (List.range (N + 1)).map (fun k : Nat => (k : Int) + 1)
    ∧ lookupA (open_then_change s uri text lid cc N).document_versions p
        = some ((N : Int) + 1) := by
  have hopen : handle_did_open s uri text lid none
      = ({ s with
            document_versions := insertA s.document_versions p 1,
            sent := s.sent ++ [.notifDidOpen
              { uri := uri, language_id := lid, version := 1, text := text }] },
          .ok ()) := by
    unfold handle_did_open
    rw [if_neg (by rw [hinit]; simp), hp]
    have h32 : toInt32 1 = 1 := rfl
    simp only [h32]
  have hs1 : (handle_did_open s uri text lid none).1
      = { s with
          document_versions := insertA s.document_versions p 1,
          sent := s.sent ++ [.notifDidOpen
            { uri := uri, language_id := lid, version := 1, text := text }] } := by
    rw [hopen]
  have hiter := iterate_did_change_spec uri p cc hp N
    (handle_did_open s uri text lid none).1 1
    (by rw [hs1]; exact hinit)
    (by rw [hs1]; exact lookupA_insertA_self _ _ _)
    (by omega)
    (by omega)
  refine ⟨by rw [hs1]; exact lookupA_insertA_self _ _ _, by rw [hs1], ?_, ?_⟩
  · show sent_versions (iterate_did_change uri cc N
        (handle_did_open s uri text lid none).1).sent uri = _
    rw [hiter.1, hs1]
    simp only [sent_versions_append]
    have hone : sent_versions [OutMsg.notifDidOpen
        { uri := uri, language_id := lid, version := 1, text := text }] uri = [1] := by
      simp [sent_versions]
    rw [hone, List.append_assoc]
    congr 1
    rw [List.range_succ_eq_map, List.map_cons, List.map_map, List.singleton_append]
    refine congrArg₂ List.cons (by norm_num) ?_
    apply List.map_congr_left
    intro i _
    simp only [Function.comp_apply]
    push_cast
    ring
  · show lookupA (iterate_did_change uri cc N
        (handle_did_open s uri text lid none).1).document_versions p = _
    rw [hiter.2.1]
    congr 1
    ring

/-- Witness for C1: a DidOpen followed by two DidChange commands on the
example task sends versions `[1, 2, 3]` and leaves the table entry at 3. -/
theorem claim_version_sequence_witness :
    exampleTask.initialized = true
    ∧ uriEx.file_path = some "/a.rs"
    ∧ ((2 : Nat) : Int) + 1 < 2 ^ 31
    ∧ sent_versions (open_then_change exampleTask uriEx "fn" "rust" [] 2).sent uriEx
        = sent_versions exampleTask.sent uriEx
          ++ (List.range 3).map (fun k : Nat => (k : Int) + 1)
    ∧ lookupA (open_then_change exampleTask uriEx "fn" "rust" [] 2).document_versions
        "/a.rs" = some ((2 : Int) + 1) := by
  have h := claim_version_sequence exampleTask uriEx "/a.rs" "fn" "rust" [] 2
    rfl rfl (by decide)
  exact ⟨rfl, rfl, by decide, h.2.2.1, h.2.2.2⟩

/-! ### C7: read failure -/

/-- C7.  A read failure from the server's stdout makes the event loop push
exactly one `LspError` bridge message — carrying the language id and the
error text — and exit immediately, leaving any further events unprocessed;
after the loop exits the command queue is closed, so `did_open` and
`did_change` on the handle fail fast with an error instead of hanging.  The
handler is a total function: no panic is possible. -/
theorem claim_read_error_single_error_exit (s : LspTask) (e : String)
    (rest : List RunEvent) :
    run s (.readResult (.error e) :: rest)
      = ⟨{ s with bridge := s.bridge
            ++ [.lspError s.language ("Read error: " ++ e)] }, [], [], rest, true⟩
    ∧ (∀ h : LspHandle, h.command_closed = true →
        (∃ msg, h.did_open = .error msg) ∧ (∃ msg, h.did_change = .error msg)) := by
  refine ⟨rfl, ?_⟩
  intro h hc
  cases hinit : h.initialized with
  | false =>
    exact ⟨⟨"LSP client not initialized", by simp [LspHandle.did_open, hinit]⟩,
      ⟨"LSP client not initialized", by simp [LspHandle.did_change, hinit]⟩⟩
  | true =>
    exact ⟨⟨"Failed to send did_open command", by simp [LspHandle.did_open, hinit, hc]⟩,
      ⟨"Failed to send did_change command", by simp [LspHandle.did_change, hinit, hc]⟩⟩

/-- Witness for C7: a concrete read error on the example task produces the
one bridge message and exits; a closed handle rejects `did_open`. -/
theorem claim_read_error_single_error_exit_witness :
    run exampleTask [.readResult (.error "stream closed")]
      = ⟨{ exampleTask with bridge := exampleTask.bridge
            ++ [.lspError exampleTask.language ("Read error: " ++ "stream closed")] },
          [], [], [], true⟩
    ∧ (∃ msg, LspHandle.did_open { initialized := true, command_closed := true }
        = .error msg) := by
  have h := claim_read_error_single_error_exit exampleTask "stream closed" []
  exact ⟨h.1, (h.2 { initialized := true, command_closed := true } rfl).1⟩

/-! ### C9: initialize failure semantics -/

/-- C9.  When the Initialize command fails — the write of the `initialize`
request failed, the reply channel closed, the server answered with an error,
or the reply would not deserialize — the session's `initialized` flag and its
bridge queue are exactly as before (in particular no `LspInitialized` bridge
message was pushed); on success the flag is true and exactly one
`LspInitialized` message was appended.  A failed write or an error reply
surfaces as that error, and in every case the event loop delivers the result
into the command's one-shot reply slot. -/
theorem claim_initialize_failure (s : LspTask) (root_uri : Option Url)
    (out : ReqOutcome) (ne : Option String) :
    (∀ e, ( handle_initialize s root_uri out ne).2 = .error e →
        ( handle_initialize s root_uri out ne).1.initialized = s.initialized
        ∧ ( handle_initialize s root_uri out ne).1.bridge = s.bridge)
    ∧ (∀ r, ( handle_initialize s root_uri out ne).2 = .ok r →
        ( handle_initialize s root_uri out ne).1.initialized = true
        ∧ ( handle_initialize s root_uri out ne).1.bridge
            = s.bridge ++ [.lspInitialized s.language])
    ∧ (∀ e, out = .writeErr e → ( handle_initialize s root_uri out ne).2 = .error e)
    ∧ (∀ e, out = .reply (.error e) →
        ( handle_initialize s root_uri out ne).2 = .error e)
    ∧ (∀ slot rest,
        (run s (.command (.initializeCmd root_uri slot out ne) :: rest)).replies
          = (slot, ( handle_initialize s root_uri out ne).2)
              :: (run ( handle_initialize s root_uri out ne).1 rest).replies) := by
  have hreplies : ∀ slot rest,
      (run s (.command (.initializeCmd root_uri slot out ne) :: rest)).replies
        = (slot, ( handle_initialize s root_uri out ne).2)
            :: (run ( handle_initialize s root_uri out ne).1 rest).replies := by
    intro slot rest
    cases hh : handle_initialize s root_uri out ne with
    | mk s1 res => simp [run, hh]
  cases out with
  | writeErr e0 =>
    have hh : handle_initialize s root_uri (.writeErr e0) ne
        = ({ s with
              next_id := s.next_id + 1,
              pending := insertA s.pending s.next_id () },
            .error e0) := rfl
    rw [hh] at hreplies ⊢
    refine ⟨fun e _ => ⟨rfl, rfl⟩, ?_, fun e he => ?_, fun e he => by simp at he,
      hreplies⟩
    · intro r hr
      simp at hr
    · injection he with h1
      rw [h1]
  | chanClosed =>
    have hh : handle_initialize s root_uri .chanClosed ne
        = ({ s with
              next_id := s.next_id + 1,
              pending := insertA s.pending s.next_id (),
              sent := s.sent ++ [.reqInit s.next_id root_uri] },
            .error "Response channel closed") := rfl
    rw [hh] at hreplies ⊢
    refine ⟨fun e _ => ⟨rfl, rfl⟩, ?_, fun e he => by simp at he,
      fun e he => by simp at he, hreplies⟩
    intro r hr
    simp at hr
  | reply rep =>
    cases rep with
    | error e0 =>
      have hh : handle_initialize s root_uri (.reply (.error e0)) ne
          = ({ s with
                next_id := s.next_id + 1,
                pending := eraseA (insertA s.pending s.next_id ()) s.next_id,
                sent := s.sent ++ [.reqInit s.next_id root_uri] },
              .error e0) := rfl
      rw [hh] at hreplies ⊢
      refine ⟨fun e _ => ⟨rfl, rfl⟩, ?_, fun e he => by simp at he, fun e he => ?_,
        hreplies⟩
      · intro r hr
        simp at hr
      · injection he with h1
        injection h1 with h2
        rw [h2]
    | ok v =>
      cases hj : initializeResultFromJson v with
      | none =>
        have hh : handle_initialize s root_uri (.reply (.ok v)) ne
            = ({ s with
                  next_id := s.next_id + 1,
                  pending := eraseA (insertA s.pending s.next_id ()) s.next_id,
                  sent := s.sent ++ [.reqInit s.next_id root_uri] },
                .error "Failed to deserialize response") := by
          unfold handle_initialize send_request
          simp only [hj]
        rw [hh] at hreplies ⊢
        refine ⟨fun e _ => ⟨rfl, rfl⟩, ?_, fun e he => by simp at he,
          fun e he => by simp at he, hreplies⟩
        intro r hr
        simp at hr
      | some result =>
        cases ne with
        | some e1 =>
          have hh : handle_initialize s root_uri (.reply (.ok v)) (some e1)
              = ({ s with
                    next_id := s.next_id + 1,
                    pending := eraseA (insertA s.pending s.next_id ()) s.next_id,
                    capabilities := some result.capabilities,
                    sent := s.sent ++ [.reqInit s.next_id root_uri] },
                  .error e1) := by
            unfold handle_initialize send_request
            simp only [hj]
          rw [hh] at hreplies ⊢
          refine ⟨fun e _ => ⟨rfl, rfl⟩, ?_, fun e he => by simp at he,
            fun e he => by simp at he, hreplies⟩
          intro r hr
          simp at hr
        | none =>
          have hh : handle_initialize s root_uri (.reply (.ok v)) none
              = ({ s with
                    next_id := s.next_id + 1,
                    pending := eraseA (insertA s.pending s.next_id ()) s.next_id,
                    capabilities := some result.capabilities,
                    initialized := true,
                    sent := s.sent ++ [.reqInit s.next_id root_uri]
                      ++ [OutMsg.notifInitialized],
                    bridge := s.bridge ++ [AsyncMessage.lspInitialized s.language] },
                  .ok result) := by
            unfold handle_initialize send_request
            simp only [hj]
          rw [hh] at hreplies ⊢
          refine ⟨?_, fun r _ => ⟨rfl, rfl⟩, fun e he => by simp at he,
            fun e he => by simp at he, hreplies⟩
          intro e he
          simp at he

/-- Witness for C9: a failed request write on the uninitialized example task
surfaces the write error and leaves the flag and the bridge untouched. -/
theorem claim_initialize_failure_witness :
    ( handle_initialize notInitTask none (.writeErr "broken pipe") none).2
        = .error "broken pipe"
    ∧ ( handle_initialize notInitTask none (.writeErr "broken pipe") none).1.initialized
        = notInitTask.initialized
    ∧ ( handle_initialize notInitTask none (.writeErr "broken pipe") none).1.bridge
        = notInitTask.bridge := by
  have h := claim_initialize_failure notInitTask none (.writeErr "broken pipe") none
  have he := h.2.2.1 "broken pipe" rfl
  exact ⟨he, (h.1 "broken pipe" he).1, (h.1 "broken pipe" he).2⟩

/-! ### C2: disabling LSP for a buffer -/

/-- C2.  When the buffer has a file URI and the manager holds a handle for
its language, `disable_lsp_for_buffer` emits exactly one `didClose` for that
URI *before* marking the buffer's metadata LSP-disabled (the event trace is
`[sentDidClose, markedDisabled, clearedCaches]` in that order), and then
clears the stored diagnostics, diagnostic result-ids and folding ranges
cached under the URI. -/
theorem claim_disable_lsp_didclose (ed : Editor) (bid : Nat)
    (md : BufferMetadata) (bs : EditorBufferState) (uri : Url)
    (mgr : List (String × ManagerHandle)) (h : ManagerHandle)
    (hev : ed.events = [])
    (hmd : lookupA ed.buffer_metadata bid = some md)
    (huri : md.file_uri = some uri)
    (hbs : lookupA ed.buffers bid = some bs)
    (hlsp : ed.lsp = some mgr)
    (hh : lookupA mgr bs.language = some h) :
    (disable_lsp_for_buffer ed bid).events
      = [.sentDidClose uri, .markedDisabled bid, .clearedCaches uri.raw]
    ∧ lookupA (disable_lsp_for_buffer ed bid).buffer_metadata bid
        = some { md.disable_lsp "lsp.disabled.user" with lsp_opened_with := [] }
    ∧ lookupA (disable_lsp_for_buffer ed bid).stored_diagnostics uri.raw = none
    ∧ lookupA (disable_lsp_for_buffer ed bid).diagnostic_result_ids uri.raw = none
    ∧ lookupA (disable_lsp_for_buffer ed bid).stored_folding_ranges uri.raw = none
    ∧ (disable_lsp_for_buffer ed bid).status_message
        = some "lsp.disabled_for_buffer" := by
  have hmd2 : (md.disable_lsp "lsp.disabled.user").file_uri = some uri := by
    rw [BufferMetadata.disable_lsp]
    exact huri
  unfold disable_lsp_for_buffer
  simp only [hmd, Option.some_bind, huri, hbs, Option.map_some', Option.getD_some,
    hlsp, hh, lookupA_insertA_self, hmd2, hev, lookupA_eraseA_self]
  refine ⟨by trivial, ?_, by trivial, by trivial, by trivial, by trivial⟩
  cases hb2 : lookupA ed.buffers bid with
  | none => simp [lookupA_insertA_self]
  | some bs2 => simp [lookupA_insertA_self]

/-- A buffer-and-session editor state used to witness C2. -/
def edEx : Editor where
  buffer_metadata :=
    [(0, { file_uri := some uriEx, lsp_enabled := true,
           lsp_disabled_reason := none, lsp_opened_with := [0] })]
  buffers :=
    [(0, { language := "rust", virtual_texts := [7], folding_ranges := [3] })]
  lsp := some [("rust", { hid := 0, language := "rust" })]
  stored_diagnostics := [("file:///a.rs", [Json.null])]
  diagnostic_result_ids := [("file:///a.rs", "r1")]
  stored_folding_ranges := [("file:///a.rs", [Json.null])]
  folding_ranges_in_flight := [0]
  folding_ranges_debounce := [(0, 5)]
  pending_folding_range_requests := [(9, { buffer_id := 0 })]
  split_view_states := [(0, { keyed_states := [(0, { folds := [1] })] })]
  status_message := none
  events := []

/-- Witness for C2: on the concrete editor state the trace is the three
events in order and the URI-keyed caches are gone. -/
theorem claim_disable_lsp_didclose_witness :
    (disable_lsp_for_buffer edEx 0).events
      = [.sentDidClose uriEx, .markedDisabled 0, .clearedCaches uriEx.raw]
    ∧ lookupA (disable_lsp_for_buffer edEx 0).stored_diagnostics uriEx.raw = none
    ∧ lookupA (disable_lsp_for_buffer edEx 0).diagnostic_result_ids uriEx.raw = none
    ∧ lookupA (disable_lsp_for_buffer edEx 0).stored_folding_ranges uriEx.raw = none := by
  have h := claim_disable_lsp_didclose edEx 0
    { file_uri := some uriEx, lsp_enabled := true, lsp_disabled_reason := none,
      lsp_opened_with := [0] }
    { language := "rust", virtual_texts := [7], folding_ranges := [3] }
    uriEx [("rust", { hid := 0, language := "rust" })] { hid := 0, language := "rust" }
    (by rfl) (by rfl) (by rfl) (by rfl) (by rfl) (by rfl)
  exact ⟨h.1, h.2.2.1, h.2.2.2.1, h.2.2.2.2.1⟩

/-! ### C5: the wire codec -/

/-- A notification whose `params` slot holds an explicit `Value::Null`. -/
def mNull : JsonRpcMessage :=
  .notification { jsonrpc := "2.0", method := "m", params := some .null }

/-- The same notification with `params := None`. -/
def mNoNull : JsonRpcMessage :=
  .notification { jsonrpc := "2.0", method := "m", params := none }

/-- C5, counterexample.  The claim says reading back a written frame returns
a message equal to the one written, for every message; but a message holding
`Some(Value::Null)` in its `params` slot serialises to the same bytes as the
one holding `None` (serde writes both as `null`) and deserialises to `None`
— the round trip returns a different message. -/
theorem claim_wire_roundtrip_cex :
    read_message (write_message mNull) = .ok (mNoNull, [])
    ∧ ¬ mNoNull = mNull := by
  constructor
  · have h : write_message mNull = write_message mNoNull ++ [] := by
      rw [List.append_nil]
      rfl
    rw [h, read_message_write_message mNoNull [] rfl]
  · intro h
    simp [mNull, mNoNull] at h

/-- C5, amended.  `write_message` emits exactly the bytes of
`"Content-Length: {n}\r\n\r\n{json}"` where `n` is the JSON byte length, and
`read_message` on such a frame (with anything following on the stream)
consumes exactly the frame and returns the original message — for every
message with no explicit `null` in an optional `Value` slot (`Some(Value::Null)`
does not survive, as the counterexample shows); `read_message` fails with an
error when the blank line arrives before any `Content-Length` header, and
when the body is not valid UTF-8. -/
theorem claim_wire_codec (m : JsonRpcMessage) (extra rest body : List Nat)
    (h : noNullOpt m = true) (hbad : utf8Decode body = none) :
    write_message m
      = (clPre (utf8Encode (printJson (messageToJson m))).length).map Char.toNat
        ++ 10 :: (13 :: 10 :: utf8Encode (printJson (messageToJson m)))
    ∧ read_message (write_message m ++ extra) = .ok (m, extra)
    ∧ read_message (13 :: 10 :: rest) = .error "Missing Content-Length header"
    ∧ read_message (utf8Encode (content_length_marker ++ natToChars body.length
        ++ "\r\n\r\n".data) ++ (body ++ extra)) = .error "Invalid UTF-8" :=
  ⟨write_message_bytes m, read_message_write_message m extra h,
    read_message_missing_length rest, read_message_invalid_utf8 body extra hbad⟩

/-- Witness for C5 (amended): the null-free notification round-trips on a
concrete stream, and the byte `255` alone is invalid UTF-8. -/
theorem claim_wire_codec_witness :
    noNullOpt mNoNull = true
    ∧ utf8Decode [255] = none
    ∧ read_message (write_message mNoNull ++ [13]) = .ok (mNoNull, [13]) := by
  refine ⟨rfl, by decide, ?_⟩
  exact (claim_wire_codec mNoNull [13] [] [255] rfl (by decide)).2.1

end Fresh
